import Mathlib

/-!
Verification development for the `leanpy` repository.

The Python sources under `leanpy/` are shallowly embedded here:

* `deps.py`   — the dependency record (`LeanDependencyConfig`), the
  `lakefile.toml` duplicate detection and append logic
  (`_dependency_exists`, `_write_dependency_toml`), the subprocess wrapper
  `_run`, and the `update_with_fallback` retry logic of
  `install_dependency`.
* `project.py` — the project state machine (`_init_or_reuse`,
  `_is_lake_project`, `clone`), the dependency hydration path
  (`_load_existing_dependencies`, `_extract_scope_and_name`,
  `_extract_from_toml`, `_scope_name_from_git`, `_add_dependency_if_missing`)
  and the in-memory append in `install_dependency`.

Files are modelled at line granularity (`List String`): every operation the
source performs on the config file is line structured (the writer appends
whole lines and both readers split the text into lines), and the writer's
conditional newline handling makes the written text's line decomposition be
exactly `old lines ++ new block`.  Python string primitives used by the
source (`strip`, `strip('"')`, `split("=", 1)`, `splitlines`, truthiness,
`x or y`) are re-implemented below over `List Char` so that proofs can
compute with them; stdlib behaviour that lives outside the repository
(`tomllib.loads`, `json.loads`, `urllib.parse.urlparse`) is modelled
explicitly and each model is documented at its definition.
-/

namespace LeanPy

/-! ## Python string primitives -/

/-- Characters Python's `str.strip()` removes (the ASCII whitespace the
repository's files can contain). -/
def wsChar (c : Char) : Bool :=
  c = ' ' || c = '\t' || c = '\r' || c = '\n' || c = '\x0b' || c = '\x0c'

/-- Drop leading and trailing whitespace from a char list. -/
def trimChars (l : List Char) : List Char :=
  ((l.dropWhile wsChar).reverse.dropWhile wsChar).reverse

/-- Model of Python `str.strip()`: drop leading and trailing whitespace. -/
def pyStrip (s : String) : String :=
  ⟨trimChars s.data⟩

/-- Drop leading and trailing runs of double quotes from a char list. -/
def quoteTrimChars (l : List Char) : List Char :=
  ((l.dropWhile (· = '"')).reverse.dropWhile (· = '"')).reverse

/-- Model of Python `str.strip('"')`: drop leading and trailing runs of
double-quote characters. -/
def pyStripQuotes (s : String) : String :=
  ⟨quoteTrimChars s.data⟩

/-- Model of Python `str.removesuffix(suf)`. -/
def pyRemoveSuffix (s suf : String) : String :=
  if suf.data.isSuffixOf s.data then ⟨s.data.take (s.data.length - suf.data.length)⟩ else s

/-- Model of Python `s.split(sep, 1)` for a one-character separator, returning
`none` when the separator does not occur (the source only asks `sep in s`
first, so this fuses the membership test with the split). -/
def splitFirst (sep : Char) (s : String) : Option (String × String) :=
  match s.data.dropWhile (· ≠ sep) with
  | [] => none
  | _ :: rest => some (⟨s.data.takeWhile (· ≠ sep)⟩, ⟨rest⟩)

/-- Substring test over char lists, modelling Python's `needle in haystack`. -/
def listContains (needle : List Char) : List Char → Bool
  | [] => needle.isEmpty
  | c :: t => needle.isPrefixOf (c :: t) || listContains needle t

/-- Model of Python `needle in haystack` on strings. -/
def strContains (haystack needle : String) : Bool :=
  listContains needle.data haystack.data

/-- Python string truthiness on an optional string (`None` and `""` are
falsy). -/
def strTruthy : Option String → Bool
  | none => false
  | some s => !s.isEmpty

/-- Model of Python `a or b` on optional strings: `a` when truthy, else `b`. -/
def pyOrS (a b : Option String) : Option String :=
  if strTruthy a then a else b

/-- Whether a line is blank after stripping (used to model
`text.strip()` emptiness checks at line granularity). -/
def isBlankLine (l : String) : Bool :=
  (pyStrip l).data.isEmpty

/-! ## Manifest model: `LeanDependencyConfig` (deps.py lines 13-28) -/

/-- Embedding of the frozen dataclass `LeanDependencyConfig` in `deps.py`. -/
structure LeanDependencyConfig where
  scope : String
  name : String
  version : Option String := none
  cache : Bool := false
deriving Repr, DecidableEq

/-- Embedding of the `identifier` property: `scope/name` or
`scope/name@version` when the version is truthy (`if self.version`). -/
def identifier (d : LeanDependencyConfig) : String :=
  let base := d.scope ++ "/" ++ d.name
  if strTruthy d.version then base ++ "@" ++ (d.version.getD "") else base

/-! ## Subprocess results, `_run` and `update_with_fallback` (deps.py) -/

/-- Outcome of one subprocess invocation (`subprocess.run` with
`capture_output=True, text=True`). -/
structure ProcResult where
  returncode : Nat
  stdout : String
  stderr : String
deriving Repr, DecidableEq

/-- Embedding of the `DependencyError` message raised by `_run` in `deps.py`:
it embeds the joined command line, the exit code and the captured output. -/
def cmdFailMsg (args : List String) (p : ProcResult) : String :=
  "Command " ++ String.intercalate " " args ++ " failed (exit " ++
    toString p.returncode ++ ").\nstdout:\n" ++ p.stdout ++ "\n\nstderr:\n" ++ p.stderr

/-- Error raised by the dependency reconciler (`DependencyError` in
`errors.py`), carrying its message. -/
structure DependencyError where
  msg : String
deriving Repr, DecidableEq

/-- Embedding of `_run` in `deps.py`: non-zero exit raises `DependencyError`
with `cmdFailMsg`, zero exit returns the process result. -/
def runDeps (args : List String) (p : ProcResult) : Except DependencyError ProcResult :=
  if p.returncode ≠ 0 then .error ⟨cmdFailMsg args p⟩ else .ok p

/-- Embedding of `update_with_fallback` in `install_dependency` (deps.py
lines 45-53).  `first` is the outcome of `lake update --reconfigure`;
`second` is the outcome the retry `lake update` would have (consulted only
when the retry runs). -/
def updateWithFallback (first second : ProcResult) : Except DependencyError Unit :=
  match runDeps ["lake", "update", "--reconfigure"] first with
  | .ok _ => .ok ()
  | .error exc =>
    if strContains exc.msg "--reconfigure" || strContains exc.msg "unknown option" ||
        strContains exc.msg "unrecognized option" then
      (runDeps ["lake", "update"] second).map fun _ => ()
    else
      .error exc

/-- Error raised by the project state machine (`ProjectInitError` in
`errors.py`): a message, plus the wrapped cause when the source raises
with `from exc`. -/
structure ProjectInitErr where
  msg : String
  cause : Option String := none
deriving Repr, DecidableEq

/-! ## Model of `urllib.parse.urlparse(url).path` -/

/-- Characters allowed in a URL scheme (urllib's `scheme_chars`). -/
def schemeChar (c : Char) : Bool :=
  c.isAlphanum || c = '+' || c = '-' || c = '.'

/-- Model of `urllib.parse.urlparse(url).path` (Python stdlib, outside this
repository): strip a leading `scheme:`, strip a `//netloc` component up to
the next `/`, `?` or `#`, then keep the part before any fragment and
query. -/
def urlparsePath (url : String) : String :=
  let l₀ := url.data
  let l₁ :=
    match l₀.dropWhile (· ≠ ':') with
    | ':' :: rest =>
      match l₀.takeWhile (· ≠ ':') with
      | c :: cs => if c.isAlpha && (c :: cs).all schemeChar then rest else l₀
      | [] => l₀
    | _ => l₀
  let l₂ :=
    match l₁ with
    | '/' :: '/' :: rest => rest.dropWhile fun c => c ≠ '/' && c ≠ '?' && c ≠ '#'
    | _ => l₁
  ⟨(l₂.takeWhile (· ≠ '#')).takeWhile (· ≠ '?')⟩

/-- Model of Python `s.split(sep)` for a one-character separator. -/
def splitOnChar (sep : Char) : List Char → List (List Char)
  | [] => [[]]
  | c :: rest =>
    let r := splitOnChar sep rest
    if c = sep then [] :: r
    else
      match r with
      | [] => [[c]]
      | h :: t => (c :: h) :: t

/-- The non-empty path segments of a URL:
`[p for p in urlparse(url).path.split("/") if p]`. -/
def urlPathSegments (url : String) : List String :=
  ((splitOnChar '/' (urlparsePath url).data).map fun l => (⟨l⟩ : String)).filter
    fun s => !s.data.isEmpty

/-! ## JSON values and the lock-manifest load path (project.py) -/

/-- JSON values, the output of a successful `json.loads` (the JSON parser is
Python stdlib; `json.loads` keeps the last binding of a duplicated object
key, so parsed objects have unique keys). -/
inductive Json where
  | null
  | bool (b : Bool)
  | num (n : Int)
  | str (s : String)
  | arr (xs : List Json)
  | obj (kvs : List (String × Json))

/-- Python truthiness of a JSON value. -/
def jsonTruthy : Json → Bool
  | .null => false
  | .bool b => b
  | .num n => n ≠ 0
  | .str s => !s.isEmpty
  | .arr xs => !xs.isEmpty
  | .obj kvs => !kvs.isEmpty

/-- `dict.get(key)` on a parsed JSON object (absent key gives `none`,
Python's `None`). -/
def jsonGet (kvs : List (String × Json)) (key : String) : Option Json :=
  (kvs.find? (·.1 == key)).map (·.2)

/-- Truthiness of an optional JSON value (`None` is falsy). -/
def jsonTruthyOpt : Option Json → Bool
  | none => false
  | some v => jsonTruthy v

/-- Python `==` between a possibly-absent JSON value and a string (values of
other types never compare equal to a `str`). -/
def jsonEqStr (v : Option Json) (s : String) : Bool :=
  match v with
  | some (.str t) => t == s
  | _ => false

/-- Python `a or b` where `a` is an optional JSON value and `b` a JSON
default. -/
def pyOrJson (a : Option Json) (b : Json) : Json :=
  match a with
  | some v => if jsonTruthy v then v else b
  | none => b

/-- The URL chain of `_extract_scope_and_name` (project.py line 153):
`pkg.get("url") or pkg.get("git") or pkg.get("gitUrl") or ""`. -/
def urlValue (pkg : List (String × Json)) : Json :=
  pyOrJson (jsonGet pkg "url") (pyOrJson (jsonGet pkg "git") (pyOrJson (jsonGet pkg "gitUrl") (.str "")))

/-- Embedding of `_extract_scope_and_name` (project.py lines 151-162).
`.error ()` marks inputs on which the source raises (`urlparse` applied to
a truthy non-string URL value); a record whose fallback name is a truthy
non-string is also mapped to `.error ()` — the source builds an ill-typed
record there, which this embedding's string-typed records cannot hold, so
processing conservatively stops (no claim touches that corner). -/
def extractScopeAndName (pkg : List (String × Json)) : Except Unit (String × String) :=
  match urlValue pkg with
  | .str u =>
    match (urlPathSegments u).reverse with
    | last :: secondLast :: _ => .ok (secondLast, pyRemoveSuffix last ".git")
    | _ =>
      match jsonGet pkg "name" with
      | some (.str s) => .ok ("unknown", s)
      | none => .ok ("unknown", "unknown")
      | some _ => .error ()
  | _ => .error ()

/-- Embedding of `_add_dependency_if_missing` (project.py lines 223-232):
append unless an entry with equal scope, name and version is already
present. -/
def addDependencyIfMissing (deps : List LeanDependencyConfig) (dep : LeanDependencyConfig) :
    List LeanDependencyConfig :=
  if deps.any fun e => e.scope == dep.scope && e.name == dep.name && e.version == dep.version
  then deps
  else deps ++ [dep]

/-- The `for pkg in packages` loop of `_load_existing_dependencies`
(project.py lines 136-142).  A record on which the source raises aborts the
loop but keeps the dependencies added so far — the surrounding
`except Exception: pass` swallows the error mid-iteration. -/
def manifestPkgsLoop (selfName : String) :
    List Json → List LeanDependencyConfig → List LeanDependencyConfig
  | [], acc => acc
  | .obj kvs :: rest, acc =>
    let pkgName := jsonGet kvs "name"
    if !jsonTruthyOpt pkgName || jsonEqStr pkgName selfName then
      manifestPkgsLoop selfName rest acc
    else
      match extractScopeAndName kvs with
      | .ok sn => manifestPkgsLoop selfName rest (addDependencyIfMissing acc ⟨sn.1, sn.2, none, false⟩)
      | .error _ => acc
  | _ :: _, acc => acc

/-- On-disk state of `lake-manifest.json` as seen through `json.loads`:
absent, present with content the JSON parser rejects, or present with
parsed content. -/
inductive ManifestFile where
  | absent
  | malformed
  | parsed (value : Json)

/-- Dependencies contributed by the manifest phase of
`_load_existing_dependencies` (project.py lines 131-144).  Every failure —
malformed JSON, non-object data, a non-list `packages` value, a record the
loop raises on — is swallowed by `except Exception: pass`, keeping whatever
was added before the failure. -/
def manifestDeps (mf : ManifestFile) (selfName : String) : List LeanDependencyConfig :=
  match mf with
  | .absent => []
  | .malformed => []
  | .parsed j =>
    match j with
    | .obj kvs =>
      match jsonGet kvs "packages" with
      | some (.arr xs) => manifestPkgsLoop selfName xs []
      | _ => []
    | _ => []

/-! ## The line-based `lakefile.toml` reader `_extract_from_toml` -/

/-- An association list with Python-dict overwrite on repeated keys, the
`current_dep` dictionary of `_extract_from_toml`. -/
abbrev StrDict := List (String × String)

/-- `d[k] = v` with dict semantics. -/
def dictSet (d : StrDict) (k v : String) : StrDict :=
  match d with
  | [] => [(k, v)]
  | (k', v') :: rest => if k' == k then (k, v) :: rest else (k', v') :: dictSet rest k v

/-- `d.get(k)` on a string dict. -/
def dictGet (d : StrDict) (k : String) : Option String :=
  (d.find? (·.1 == k)).map (·.2)

/-- Embedding of `_scope_name_from_git` (project.py lines 213-221). -/
def scopeNameFromGit (gitUrl : Option String) (fallbackName : String) : String × String :=
  if strTruthy gitUrl then
    match (urlPathSegments (gitUrl.getD "")).reverse with
    | last :: secondLast :: _ => (secondLast, pyRemoveSuffix last ".git")
    | _ => ("unknown", fallbackName)
  else ("unknown", fallbackName)

/-- State of the `_extract_from_toml` line scan: the dependencies collected
so far and the in-progress `current_dep` dictionary (`none` is Python's
`None`).  The source's `mode_require` flag is written but never read, so it
is omitted. -/
structure ExtState where
  deps : List LeanDependencyConfig
  current : Option StrDict
deriving Repr, DecidableEq

/-- Embedding of the local `flush()` of `_extract_from_toml` (project.py
lines 171-186).  A falsy `current_dep` (`None` or an empty dict) returns
early without resetting it, exactly as `if not current_dep: return` does. -/
def flushDep (st : ExtState) : ExtState :=
  match st.current with
  | none => st
  | some [] => st
  | some cd =>
    let name := dictGet cd "name"
    let scope := (dictGet cd "scope").getD "unknown"
    let version := pyOrS (dictGet cd "rev") (pyOrS (dictGet cd "branch") (dictGet cd "tag"))
    let gitUrl := dictGet cd "git"
    let sn : String × Option String :=
      if strTruthy gitUrl && scope == "unknown" then
        let p := scopeNameFromGit gitUrl (name.getD "")
        (p.1, if p.2.isEmpty then name else some p.2)
      else (scope, name)
    match sn.2 with
    | some n =>
      if n.isEmpty then ⟨st.deps, none⟩
      else ⟨st.deps ++ [⟨sn.1, n, version, false⟩], none⟩
    | none => ⟨st.deps, none⟩

/-- Dispatch of `_extract_from_toml`'s loop body on the stripped line
(project.py lines 189-208). -/
def extractStepStripped (st : ExtState) (stripped : String) : ExtState :=
  if stripped.data.isEmpty then flushDep st
  else if "[[require]]".data.isPrefixOf stripped.data then
    { flushDep st with current := some [] }
  else if "[dependencies.".data.isPrefixOf stripped.data && "]".data.isSuffixOf stripped.data then
    { flushDep st with current := some [("name", ⟨(stripped.data.drop 14).dropLast⟩)] }
  else
    match splitFirst '=' stripped, st.current with
    | some kv, some cd =>
      { st with current := some (dictSet cd (pyStrip kv.1) (pyStripQuotes (pyStrip kv.2))) }
    | _, _ => st

/-- Embedding of the line loop body of `_extract_from_toml` (project.py
lines 188-208): strip, then dispatch. -/
def extractStep (st : ExtState) (line : String) : ExtState :=
  extractStepStripped st (pyStrip line)

/-- Embedding of `_extract_from_toml` (project.py lines 164-211) over the
file's lines. -/
def extractFromToml (ls : List String) : List LeanDependencyConfig :=
  (flushDep (ls.foldl extractStep ⟨[], none⟩)).deps

/-- Embedding of `_load_existing_dependencies` (project.py lines 129-149)
over the on-disk state: the manifest as seen through `json.loads`, and the
lines of `lakefile.toml` when that file exists (`none` = absent).  The
`Except` codomain records that the source could in principle raise; its
body never does — manifest failures are swallowed, and the config reader is
total on file content. -/
def loadExistingDependencies (manifest : ManifestFile) (lakefileToml : Option (List String))
    (selfName : String) : Except ProjectInitErr (List LeanDependencyConfig) :=
  let afterManifest := manifestDeps manifest selfName
  match lakefileToml with
  | some ls => .ok ((extractFromToml ls).foldl addDependencyIfMissing afterManifest)
  | none => .ok afterManifest

/-- The in-memory effect of `LeanProject.install_dependency` (project.py
lines 42-45): once the config write and `lake update` succeed, the record
is appended to `self.dependencies` unconditionally. -/
def installDependencyMem (deps : List LeanDependencyConfig) (dep : LeanDependencyConfig) :
    List LeanDependencyConfig :=
  deps ++ [dep]

/-- The §3 equivalence: equal scope, name and version (the `cache` flag is
not compared, matching `_add_dependency_if_missing`). -/
def depEquiv (a b : LeanDependencyConfig) : Bool :=
  a.scope == b.scope && a.name == b.name && a.version == b.version

/-- No two equivalent declarations coexist in the list. -/
def NoDupEquiv (l : List LeanDependencyConfig) : Prop :=
  l.Pairwise fun a b => depEquiv a b = false

/-! ## Model of `tomllib.loads` on the fragment the repository reads and
writes -/

/-- Parsed TOML content, restricted to the shapes `deps.py` consumes:
top-level keys, plain `[section]` tables, `[dependencies.<name>]`
sub-tables and the `[[require]]` array of tables, with basic-string
values.  `tomllib` is Python stdlib; this model parses the fragment the
repository's writer emits and its reader inspects, and rejects (parse
error) input outside the fragment. -/
structure TomlData where
  topKeys : StrDict
  sections : List (String × StrDict)
  depTables : List (String × StrDict)
  requires : List StrDict
deriving Repr, DecidableEq

def emptyTomlData : TomlData := ⟨[], [], [], []⟩

/-- Where key/value lines currently land. -/
inductive TomlCtx where
  | top
  | inSection (name : String)
  | inDepTable (name : String)
  | inRequire
deriving Repr, DecidableEq

structure TomlState where
  ctx : TomlCtx
  data : TomlData
deriving Repr, DecidableEq

def tableHasKey (t : StrDict) (k : String) : Bool :=
  t.any (·.1 == k)

def tablesLookup (ts : List (String × StrDict)) (k : String) : Option StrDict :=
  (ts.find? (·.1 == k)).map (·.2)

/-- Bare TOML keys and table names (letters, digits, `_`, `-`). -/
def isBareKey (s : String) : Bool :=
  !s.data.isEmpty && s.data.all fun c => c.isAlphanum || c = '_' || c = '-'

/-- Characters legal inside the basic strings of the modelled fragment. -/
def plainStrChar (c : Char) : Bool :=
  c ≠ '"' && c ≠ '\\' && c ≠ '\n'

/-- Parse a TOML basic string `"..."` with no escapes. -/
def parseBasicString (s : String) : Option String :=
  match s.data with
  | c :: rest =>
    if c = '"' then
      match rest.reverse with
      | d :: midRev =>
        if d = '"' then
          if midRev.reverse.all plainStrChar then some ⟨midRev.reverse⟩ else none
        else none
      | [] => none
    else none
  | [] => none

/-- Add `key = val` to the named table; a duplicate key is a TOML error. -/
def tablesAddKey (ts : List (String × StrDict)) (name key val : String) :
    Except String (List (String × StrDict)) :=
  match ts with
  | [] => .error "unknown table"
  | (n, t) :: rest =>
    if n == name then
      if tableHasKey t key then .error "duplicate key"
      else .ok ((n, t ++ [(key, val)]) :: rest)
    else
      (tablesAddKey rest name key val).map ((n, t) :: ·)

/-- Add `key = val` to the last `[[require]]` entry. -/
def requiresAddKey (rs : List StrDict) (key val : String) : Except String (List StrDict) :=
  match rs.getLast? with
  | none => .error "no open require entry"
  | some t =>
    if tableHasKey t key then .error "duplicate key"
    else .ok (rs.dropLast ++ [t ++ [(key, val)]])

/-- Route a key/value line to the table the current context designates. -/
def tomlAddKeyVal (st : TomlState) (key val : String) : Except String TomlState :=
  match st.ctx with
  | .top =>
    if tableHasKey st.data.topKeys key then .error "duplicate key"
    else .ok ⟨st.ctx, { st.data with topKeys := st.data.topKeys ++ [(key, val)] }⟩
  | .inSection n =>
    (tablesAddKey st.data.sections n key val).map fun ss => ⟨st.ctx, { st.data with sections := ss }⟩
  | .inDepTable n =>
    (tablesAddKey st.data.depTables n key val).map fun ds => ⟨st.ctx, { st.data with depTables := ds }⟩
  | .inRequire =>
    (requiresAddKey st.data.requires key val).map fun rs => ⟨st.ctx, { st.data with requires := rs }⟩

/-- Dispatch of the modelled `tomllib` parse on one stripped line. -/
def tomlStepStripped (st : TomlState) (t : String) : Except String TomlState :=
  if t.data.isEmpty then .ok st
  else if t.data.head? = some '#' then .ok st
  else if t.data = "[[require]]".data then
    if tableHasKey st.data.topKeys "require" || (tablesLookup st.data.sections "require").isSome then
      .error "cannot redefine require"
    else .ok ⟨.inRequire, { st.data with requires := st.data.requires ++ [[]] }⟩
  else if "[[".data.isPrefixOf t.data then .error "unsupported array of tables"
  else if "[dependencies.".data.isPrefixOf t.data && "]".data.isSuffixOf t.data then
    let name : String := ⟨(t.data.drop 14).dropLast⟩
    if !isBareKey name then .error "malformed table header"
    else if (tablesLookup st.data.depTables name).isSome ||
        tableHasKey st.data.topKeys "dependencies" ||
        (tablesLookup st.data.sections "dependencies").isSome then
      .error "cannot redefine dependencies entry"
    else .ok ⟨.inDepTable name, { st.data with depTables := st.data.depTables ++ [(name, [])] }⟩
  else if "[".data.isPrefixOf t.data && "]".data.isSuffixOf t.data then
    let name : String := ⟨(t.data.drop 1).dropLast⟩
    if !isBareKey name then .error "malformed table header"
    else if (tablesLookup st.data.sections name).isSome || tableHasKey st.data.topKeys name ||
        (name == "require" && !st.data.requires.isEmpty) ||
        (name == "dependencies" && !st.data.depTables.isEmpty) then
      .error "cannot redefine table"
    else .ok ⟨.inSection name, { st.data with sections := st.data.sections ++ [(name, [])] }⟩
  else
    match splitFirst '=' t with
    | some kv =>
      let key := pyStrip kv.1
      match parseBasicString (pyStrip kv.2) with
      | some val => if isBareKey key then tomlAddKeyVal st key val else .error "malformed key"
      | none => .error "unsupported value"
    | none => .error "unrecognized line"

/-- One line of the modelled `tomllib` parse: strip, then dispatch. -/
def tomlStep (st : TomlState) (line : String) : Except String TomlState :=
  tomlStepStripped st (pyStrip line)

/-- Run the parse over a list of lines from a given state. -/
def tomlRun (st : TomlState) : List String → Except String TomlState
  | [] => .ok st
  | l :: rest =>
    match tomlStep st l with
    | .ok st' => tomlRun st' rest
    | .error e => .error e

/-- Model of `tomllib.loads` over the file's lines. -/
def tomlParseLines (ls : List String) : Except String TomlData :=
  (tomlRun ⟨.top, emptyTomlData⟩ ls).map (·.data)

/-! ## `_dependency_exists` and `_write_dependency_toml` (deps.py) -/

/-- The entries `_dependency_exists` iterates: the `require` value, with a
lone table (a `[require]` section) wrapped into a one-element list exactly
as the `isinstance(require_entries, dict)` branch does. -/
def requireEntriesList (d : TomlData) : List StrDict :=
  if !d.requires.isEmpty then d.requires
  else
    match tablesLookup d.sections "require" with
    | some t => [t]
    | none => []

/-- Version pin of an entry:
`entry.get("rev") or entry.get("branch") or entry.get("tag")`. -/
def entryVersion (t : StrDict) : Option String :=
  pyOrS (dictGet t "rev") (pyOrS (dictGet t "branch") (dictGet t "tag"))

/-- Embedding of `_dependency_exists` (deps.py lines 108-134). -/
def dependencyExists (d : TomlData) (dep : LeanDependencyConfig) : Bool :=
  (requireEntriesList d).any (fun entry =>
    dictGet entry "name" == some dep.name && dictGet entry "scope" == some dep.scope &&
      (dep.version.isNone || dep.version == entryVersion entry)) ||
  (match tablesLookup d.depTables dep.name with
   | some t =>
     (dictGet t "scope").getD "unknown" == dep.scope &&
       (dep.version.isNone || dep.version == entryVersion t)
   | none => false)

/-- The `[[require]]` block `_write_dependency_toml` appends — its `lines`
list (deps.py lines 95-103).  The source's leading-newline bookkeeping and
trailing empty element make the written text's line decomposition exactly
`old lines ++ this block`. -/
def requireBlock (dep : LeanDependencyConfig) : List String :=
  ["[[require]]", "name = \"" ++ dep.name ++ "\"", "scope = \"" ++ dep.scope ++ "\""] ++
    (if strTruthy dep.version then ["rev = \"" ++ dep.version.getD "" ++ "\""] else [])

/-- The `[[require]]` table that parsing `requireBlock dep` produces. -/
def reqEntry (dep : LeanDependencyConfig) : StrDict :=
  [("name", dep.name), ("scope", dep.scope)] ++
    (if strTruthy dep.version then [("rev", dep.version.getD "")] else [])

/-- Embedding of `_write_dependency_toml` (deps.py lines 79-105) over the
file's lines: parse (a file that is blank after stripping bypasses
`tomllib` and counts as empty data), raise `DependencyError` on a parse
failure, return the file unchanged when an equivalent entry exists,
otherwise append the block. -/
def writeDependencyToml (ls : List String) (dep : LeanDependencyConfig) :
    Except DependencyError (List String) :=
  if ls.all isBlankLine then
    if dependencyExists emptyTomlData dep then .ok ls else .ok (ls ++ requireBlock dep)
  else
    match tomlParseLines ls with
    | .error e => .error ⟨"Invalid TOML in lakefile.toml: " ++ e⟩
    | .ok d => if dependencyExists d dep then .ok ls else .ok (ls ++ requireBlock dep)

/-- The config-file effect of `install_dependency` (deps.py lines 39-43):
create the `[package]` skeleton when the file is absent, then run
`_write_dependency_toml`. -/
def installConfigFile (file : Option (List String)) (dep : LeanDependencyConfig) :
    Except DependencyError (List String) :=
  writeDependencyToml (file.getD ["[package]"]) dep

/-- File contents after a call that may have raised: on an exception the
file keeps its pre-call contents (the source's only write is its final
statement). -/
def fileAfter (r : Except DependencyError (List String)) (old : List String) : List String :=
  match r with
  | .ok l => l
  | .error _ => old

/-- Number of `[[require]]` dependency entries the file's parse carries. -/
def requireCount (ls : List String) : Nat :=
  match tomlParseLines ls with
  | .ok d => d.requires.length
  | .error _ => 0

/-! ## The project state machine (`_init_or_reuse`, `clone`) -/

/-- Observable directory state for `_init_or_reuse`: whether the path
exists, and when it does, which marker files it has (`lakefile.lean`,
`lakefile.toml`) and whether `any(path.iterdir())` holds. -/
inductive DirState where
  | absent
  | present (lakefileLn lakefileToml nonempty : Bool)
deriving Repr, DecidableEq

/-- Embedding of `_is_lake_project` (project.py lines 115-117). -/
def isLakeProject : DirState → Bool
  | .absent => false
  | .present l t _ => l || t

/-- Outcome of one toolchain invocation, with the project directory's state
after it ran. -/
structure CmdOutcome where
  exitCode : Nat
  stdout : String
  stderr : String
  dirAfter : DirState
deriving Repr, DecidableEq

/-- Behaviour of the external `lake` binary for the two initialization
commands; the toolchain is an external collaborator, so its effect is an
input of the model. -/
structure LakeTool where
  newOutcome : CmdOutcome
  initOutcome : CmdOutcome
deriving Repr, DecidableEq

/-- Working directory of an invocation. -/
inductive Cwd where
  | parentDir
  | projectDir
deriving Repr, DecidableEq

/-- One toolchain invocation. -/
structure CmdInvocation where
  args : List String
  cwd : Cwd
deriving Repr, DecidableEq

/-- Embedding of `_init_or_reuse` (project.py lines 75-113): the
initialization commands it runs, in order, and the result — the directory
state on success or the `ProjectInitError` it raises.  The source's
post-check error text (directory listing and command log) is abbreviated;
no claim inspects it. -/
def initOrReuse (tool : LakeTool) (st : DirState) (name : String) :
    List CmdInvocation × Except ProjectInitErr DirState :=
  match st with
  | .present l t ne =>
    if l || t then ([], .ok (.present l t ne))
    else if ne then
      ([], .error ⟨"Directory exists but is not a Lake project and not empty.", none⟩)
    else if tool.initOutcome.exitCode ≠ 0 then
      ([⟨["lake", "init"], .projectDir⟩],
        .error ⟨cmdFailMsg ["lake", "init"]
          ⟨tool.initOutcome.exitCode, tool.initOutcome.stdout, tool.initOutcome.stderr⟩, none⟩)
    else if isLakeProject tool.initOutcome.dirAfter then
      ([⟨["lake", "init"], .projectDir⟩], .ok tool.initOutcome.dirAfter)
    else
      ([⟨["lake", "init"], .projectDir⟩],
        .error ⟨"Expected Lake files not found. Initialization may have failed.", none⟩)
  | .absent =>
    if tool.newOutcome.exitCode ≠ 0 then
      ([⟨["lake", "new", name], .parentDir⟩],
        .error ⟨cmdFailMsg ["lake", "new", name]
          ⟨tool.newOutcome.exitCode, tool.newOutcome.stdout, tool.newOutcome.stderr⟩, none⟩)
    else if isLakeProject tool.newOutcome.dirAfter then
      ([⟨["lake", "new", name], .parentDir⟩], .ok tool.newOutcome.dirAfter)
    else
      ([⟨["lake", "new", name], .parentDir⟩],
        .error ⟨"Expected Lake files not found. Initialization may have failed.", none⟩)

/-- Embedding of `LeanProject.clone` (project.py lines 59-72) up to the
construction of the new project: `destExists` is `dest.exists()`,
`copyResult` the outcome of `shutil.copytree` (consulted only when the copy
runs).  The boolean records whether the copy was attempted, i.e. whether
the destination was touched at all. -/
def cloneStep (dest : String) (destExists : Bool) (copyResult : Except String Unit) :
    Bool × Except ProjectInitErr Unit :=
  if destExists then
    (false, .error ⟨"Destination " ++ dest ++ " already exists; cannot clone.", none⟩)
  else
    match copyResult with
    | .error exc => (true, .error ⟨"Failed to clone project to " ++ dest ++ ": " ++ exc, some exc⟩)
    | .ok _ => (true, .ok ())

/-! ## Decidability instances and spec-side definitions -/

instance {ε α : Type} [DecidableEq ε] [DecidableEq α] : DecidableEq (Except ε α) := fun a b =>
  match a, b with
  | .ok x, .ok y =>
    if h : x = y then isTrue (by rw [h]) else isFalse fun hc => h (Except.ok.inj hc)
  | .ok _, .error _ => isFalse fun hc => Except.noConfusion hc
  | .error _, .ok _ => isFalse fun hc => Except.noConfusion hc
  | .error x, .error y =>
    if h : x = y then isTrue (by rw [h]) else isFalse fun hc => h (Except.error.inj hc)

instance (l : List LeanDependencyConfig) : Decidable (NoDupEquiv l) := by
  unfold NoDupEquiv; infer_instance

/-- Modelled from the spec (§4.2 load path): the scope is the second-to-last
non-empty path segment, the name the last segment with a trailing `.git`
suffix stripped; fewer than two segments falls back to `"unknown"` and the
record's declared name.  Stated independently of the source's
reverse-pattern formulation, for comparison with `extractScopeAndName`. -/
def specScopeName (segs : List String) (declaredName : String) : String × String :=
  if 2 ≤ segs.length then
    ((segs[segs.length - 2]?).getD "", pyRemoveSuffix ((segs[segs.length - 1]?).getD "") ".git")
  else ("unknown", declaredName)

/-- A field value the line-based reader recovers verbatim: no newline (so
the value stays on one line of the written file) and no leading or trailing
double quote (so `strip('"')` removes exactly the writer's quotes). -/
def fieldOk (s : String) : Bool :=
  s.data.all (· ≠ '\n') && s.data.head? != some '"' && s.data.getLast? != some '"'

/-! ## Concrete inputs used by counterexamples and witnesses -/

/-- A `lakefile.toml` declaring mathlib, used to exhibit the duplicate
created by `install_dependency`'s unconditional append. -/
def c2File : List String :=
  ["[[require]]", "name = \"mathlib\"", "scope = \"leanprover-community\""]

def c2Dep : LeanDependencyConfig := ⟨"leanprover-community", "mathlib", none, false⟩

/-- A config file pinning `s/n` at `v1`, against a request for pin `v2`. -/
def c3File : List String :=
  ["[[require]]", "name = \"n\"", "scope = \"s\"", "rev = \"v1\""]

def c3Dep : LeanDependencyConfig := ⟨"s", "n", some "v2", false⟩

/-- The same declaration in the other shape `_dependency_exists` accepts:
a `[dependencies.n]` sub-table pinning `s/n` at `v1`. -/
def c3FileDeps : List String :=
  ["[dependencies.n]", "scope = \"s\"", "rev = \"v1\""]

/-- A declaration whose version pin is the empty string — falsy in Python,
so the writer emits no `rev` line and duplicate detection never matches. -/
def c5Dep : LeanDependencyConfig := ⟨"s", "n", some "", false⟩

def c5File1 : List String := ["[package]"] ++ requireBlock c5Dep

/-- Lock-manifest listing mathlib, as in the spec's §8 merge example. -/
def c6Manifest : ManifestFile :=
  .parsed (.obj [("packages", .arr
    [.obj [("name", .str "mathlib"),
           ("url", .str "https://host/leanprover-community/mathlib.git")]])])

def c6File : List String :=
  ["[[require]]", "name = \"mathlib\"", "scope = \"leanprover-community\""]

def c6Dep : LeanDependencyConfig := ⟨"leanprover-community", "mathlib", none, false⟩

def c10Dep : LeanDependencyConfig := ⟨"s", "n", some "", false⟩

/-- Manifest package record for mathlib, spec §8's merge example. -/
def c7Pkg : List (String × Json) :=
  [("name", .str "mathlib"), ("url", .str "https://host/leanprover-community/mathlib.git")]

/-! # Theorems -/

/-! ## Substring lemmas -/

theorem listContains_nil_needle : ∀ l : List Char, listContains [] l = true
  | [] => rfl
  | _ :: _ => by simp [listContains, List.isPrefixOf]

theorem listContains_append_left {n a : List Char} (b : List Char)
    (h : listContains n a = true) : listContains n (a ++ b) = true := by
  induction a with
  | nil =>
    have hn : n = [] := by
      cases n with
      | nil => rfl
      | cons c t => simp [listContains] at h
    subst hn
    exact listContains_nil_needle _
  | cons c t ih =>
    simp only [listContains, Bool.or_eq_true] at h
    rcases h with h | h
    · have hp : n <+: c :: t := List.isPrefixOf_iff_prefix.mp h
      have hp' : n <+: (c :: t) ++ b := hp.trans (List.prefix_append _ _)
      simp only [List.cons_append, listContains, Bool.or_eq_true]
      exact Or.inl (List.isPrefixOf_iff_prefix.mpr (by simpa using hp'))
    · simp only [List.cons_append, listContains, Bool.or_eq_true]
      exact Or.inr (ih h)

theorem strContains_append_left {a : String} (b n : String)
    (h : strContains a n = true) : strContains (a ++ b) n = true := by
  unfold strContains at h ⊢
  rw [String.data_append]
  exact listContains_append_left _ h

/-- The message `_run` raises for a failing `lake update --reconfigure`
always contains the literal `--reconfigure`, because the command line is
embedded in the message. -/
theorem cmdFailMsg_update_contains_reconfigure (p : ProcResult) :
    strContains (cmdFailMsg ["lake", "update", "--reconfigure"] p) "--reconfigure" = true := by
  unfold cmdFailMsg
  apply strContains_append_left
  apply strContains_append_left
  apply strContains_append_left
  apply strContains_append_left
  apply strContains_append_left
  decide

/-! ## Claim C4 -/

/-- Claim C4 (code_bug): the update command is supposed to be retried only
when the failure indicates an unrecognized flag; in the code the
`DependencyError` message always embeds the command line — which contains
`--reconfigure` — so the flag check matches every failure and the retry
always runs.  First conjunct: a plainly unrelated failure (network error)
is retried and masked by a successful retry instead of propagating.
Second conjunct: every non-zero first invocation reduces to the retry's
outcome. -/
theorem c4_update_retry_behaviour :
    updateWithFallback ⟨1, "", "error: network unreachable"⟩ ⟨0, "", ""⟩ = .ok () ∧
    (∀ first second : ProcResult, first.returncode ≠ 0 →
      updateWithFallback first second = (runDeps ["lake", "update"] second).map fun _ => ()) := by
  constructor
  · decide
  · intro first second h
    have hc := cmdFailMsg_update_contains_reconfigure first
    simp [updateWithFallback, runDeps, h, hc]

theorem c4_update_retry_behaviour_witness :
    (1 : Nat) ≠ 0 ∧
    updateWithFallback ⟨1, "", "boom"⟩ ⟨2, "out", "err"⟩ =
      (runDeps ["lake", "update"] ⟨2, "out", "err"⟩).map (fun _ => ()) :=
  ⟨by decide, c4_update_retry_behaviour.2 ⟨1, "", "boom"⟩ ⟨2, "out", "err"⟩ (by decide)⟩

/-! ## Claim C1 -/

/-- Counterexample to claim C1 as stated: a project whose lock-manifest
exists with malformed content loads successfully with an empty dependency
set — no `ProjectInitError` is raised. -/
theorem c1_counterexample :
    loadExistingDependencies .malformed none "proj" = .ok [] := rfl

/-- Claim C1 (corrected): a malformed lock-manifest is silently ignored —
loading behaves exactly as if the manifest file were absent and always
returns successfully; the fatal-error behaviour the claim describes does
not exist in the code (`except Exception: pass`). -/
theorem c1_malformed_manifest_ignored :
    ∀ (toml : Option (List String)) (selfName : String),
      loadExistingDependencies .malformed toml selfName =
        loadExistingDependencies .absent toml selfName ∧
      ∃ deps, loadExistingDependencies .malformed toml selfName = .ok deps := by
  intro toml s
  refine ⟨rfl, ?_⟩
  cases toml with
  | none => exact ⟨_, rfl⟩
  | some ls => exact ⟨_, rfl⟩

/-! ## Claims C8 and C9 -/

/-- Claim C8 (confirmed): the constructor's dispatch on the directory
state — absent runs the full scaffold in the parent directory; a marker
file means no command and immediate success; non-empty without markers is
an immediate `ProjectInitError` with no command attempted; empty runs the
light init inside the directory. -/
theorem c8_init_dispatch :
    ∀ (tool : LakeTool) (name : String) (l t ne : Bool),
      (initOrReuse tool .absent name).1 = [⟨["lake", "new", name], .parentDir⟩] ∧
      ((l || t) = true →
        initOrReuse tool (.present l t ne) name = ([], .ok (.present l t ne))) ∧
      ((l || t) = false → ne = true →
        initOrReuse tool (.present l t ne) name =
          ([], .error ⟨"Directory exists but is not a Lake project and not empty.", none⟩)) ∧
      ((l || t) = false → ne = false →
        (initOrReuse tool (.present l t ne) name).1 = [⟨["lake", "init"], .projectDir⟩]) := by
  intro tool name l t ne
  refine ⟨?_, ?_, ?_, ?_⟩
  · simp only [initOrReuse]
    split
    · rfl
    · split <;> rfl
  · intro h
    simp [initOrReuse, h]
  · intro h h2
    simp [initOrReuse, h, h2]
  · intro h h2
    rcases Bool.or_eq_false_iff.mp h with ⟨hl, ht⟩
    subst hl
    subst ht
    subst h2
    simp only [initOrReuse, Bool.or_self, Bool.false_eq_true, if_false]
    split
    · rfl
    · split <;> rfl

theorem c8_init_dispatch_witness :
    ((true || false) = true) ∧
    initOrReuse ⟨⟨0, "", "", .present true false true⟩, ⟨0, "", "", .present true false true⟩⟩
        (.present true false true) "p" =
      ([], .ok (.present true false true)) :=
  ⟨rfl, (c8_init_dispatch ⟨⟨0, "", "", .present true false true⟩,
    ⟨0, "", "", .present true false true⟩⟩ "p" true false true).2.1 rfl⟩

/-- Claim C9 (confirmed): cloning onto an existing destination fails with
`ProjectInitError` before the copy is attempted (destination untouched);
when the destination is absent, a copy failure is wrapped into a
`ProjectInitError` carrying the underlying cause. -/
theorem c9_clone_guard :
    ∀ (dest : String) (copy : Except String Unit) (e : String),
      cloneStep dest true copy =
        (false, .error ⟨"Destination " ++ dest ++ " already exists; cannot clone.", none⟩) ∧
      (copy = .error e →
        cloneStep dest false copy =
          (true, .error ⟨"Failed to clone project to " ++ dest ++ ": " ++ e, some e⟩)) := by
  intro dest copy e
  constructor
  · rfl
  · intro h
    subst h
    rfl

theorem c9_clone_guard_witness :
    (Except.error "disk full" : Except String Unit) = .error "disk full" ∧
    cloneStep "dst" false (.error "disk full") =
      (true, .error ⟨"Failed to clone project to " ++ "dst" ++ ": " ++ "disk full",
        some "disk full"⟩) :=
  ⟨rfl, (c9_clone_guard "dst" (.error "disk full") "disk full").2 rfl⟩

/-! ## Deduplication lemmas for the load path -/

theorem depEquiv_refl (d : LeanDependencyConfig) : depEquiv d d = true := by
  simp [depEquiv]

theorem addDependencyIfMissing_nodup {l : List LeanDependencyConfig}
    {d : LeanDependencyConfig} (h : NoDupEquiv l) :
    NoDupEquiv (addDependencyIfMissing l d) := by
  unfold addDependencyIfMissing
  split
  · exact h
  · next hany =>
    unfold NoDupEquiv at h ⊢
    rw [List.pairwise_append]
    refine ⟨h, List.pairwise_singleton _ _, ?_⟩
    intro a ha b hb
    simp only [List.mem_singleton] at hb
    subst hb
    cases hB : depEquiv a b with
    | false => rfl
    | true =>
      exact absurd (List.any_eq_true.mpr ⟨a, ha, hB⟩) hany

theorem addDependencyIfMissing_mem {l : List LeanDependencyConfig}
    {d e : LeanDependencyConfig} (h : e ∈ l) : e ∈ addDependencyIfMissing l d := by
  unfold addDependencyIfMissing
  split
  · exact h
  · exact List.mem_append_left _ h

theorem foldl_add_nodup (l : List LeanDependencyConfig) :
    ∀ acc, NoDupEquiv acc → NoDupEquiv (l.foldl addDependencyIfMissing acc) := by
  induction l with
  | nil => intro acc h; simpa using h
  | cons d rest ih =>
    intro acc h
    simpa using ih _ (addDependencyIfMissing_nodup h)

theorem foldl_add_mem (l : List LeanDependencyConfig) :
    ∀ acc e, e ∈ acc → e ∈ l.foldl addDependencyIfMissing acc := by
  induction l with
  | nil => intro acc e h; simpa using h
  | cons d rest ih =>
    intro acc e h
    simpa using ih _ _ (addDependencyIfMissing_mem h)

theorem manifestPkgsLoop_nodup (s : String) (xs : List Json) :
    ∀ acc, NoDupEquiv acc → NoDupEquiv (manifestPkgsLoop s xs acc) := by
  induction xs with
  | nil => intro acc h; simpa [manifestPkgsLoop] using h
  | cons x rest ih =>
    intro acc h
    cases x <;> simp only [manifestPkgsLoop] <;> try exact h
    split
    · exact ih acc h
    · split
      · exact ih _ (addDependencyIfMissing_nodup h)
      · exact h

theorem manifestDeps_nodup (mf : ManifestFile) (s : String) :
    NoDupEquiv (manifestDeps mf s) := by
  cases mf with
  | absent => exact List.Pairwise.nil
  | malformed => exact List.Pairwise.nil
  | parsed j =>
    cases j <;> simp only [manifestDeps] <;> try exact List.Pairwise.nil
    split
    · exact manifestPkgsLoop_nodup _ _ _ List.Pairwise.nil
    · exact List.Pairwise.nil

theorem load_nodup {mf : ManifestFile} {toml : Option (List String)} {n : String}
    {deps : List LeanDependencyConfig}
    (h : loadExistingDependencies mf toml n = .ok deps) : NoDupEquiv deps := by
  cases toml with
  | none =>
    simp only [loadExistingDependencies] at h
    injection h with h'
    subst h'
    exact manifestDeps_nodup mf n
  | some ls =>
    simp only [loadExistingDependencies] at h
    injection h with h'
    subst h'
    exact foldl_add_nodup _ _ (manifestDeps_nodup mf n)

/-! ## Claim C2 -/

/-- Counterexample to claim C2 as stated: hydrating from a config that
declares mathlib yields a one-element collection; installing the same
declaration (whose config write is a no-op and whose update is assumed to
succeed) appends it again, so two equivalent declarations coexist. -/
theorem c2_counterexample :
    loadExistingDependencies .absent (some c2File) "proj" = .ok [c2Dep] ∧
    writeDependencyToml c2File c2Dep = .ok c2File ∧
    installDependencyMem [c2Dep] c2Dep = [c2Dep, c2Dep] ∧
    ¬ NoDupEquiv [c2Dep, c2Dep] := by
  exact ⟨by decide, by decide, rfl, by decide⟩

/-- Claim C2 (corrected): the collection produced by construction-time
hydration never contains two equivalent declarations, but
`install_dependency` appends unconditionally — each install increases the
number of entries equivalent to the installed declaration by one, so
installing a declaration equivalent to one already held creates a
coexisting duplicate. -/
theorem c2_memory_collection :
    (∀ (mf : ManifestFile) (toml : Option (List String)) (n : String)
        (deps : List LeanDependencyConfig),
        loadExistingDependencies mf toml n = .ok deps → NoDupEquiv deps) ∧
    (∀ (deps : List LeanDependencyConfig) (d : LeanDependencyConfig),
        (installDependencyMem deps d).countP (fun e => depEquiv e d) =
          deps.countP (fun e => depEquiv e d) + 1) := by
  constructor
  · intro mf toml n deps h
    exact load_nodup h
  · intro deps d
    unfold installDependencyMem
    rw [List.countP_append]
    simp [List.countP_cons, depEquiv_refl]

theorem c2_memory_collection_witness :
    NoDupEquiv [c2Dep] ∧
    (installDependencyMem [c2Dep] c2Dep).countP (fun e => depEquiv e c2Dep) =
      ([c2Dep] : List LeanDependencyConfig).countP (fun e => depEquiv e c2Dep) + 1 :=
  ⟨c2_memory_collection.1 .absent (some c2File) "proj" [c2Dep] (by decide),
   c2_memory_collection.2 [c2Dep] c2Dep⟩

/-! ## Char-level lemmas about the Python string helpers -/

theorem trimChars_cons_ws {c : Char} (l : List Char) (hc : wsChar c = true) :
    trimChars (c :: l) = trimChars l := by
  unfold trimChars
  rw [List.dropWhile_cons_of_pos hc]

theorem trimChars_of_ends {a b : Char} (l : List Char) (ha : wsChar a = false)
    (hb : wsChar b = false) : trimChars (a :: (l ++ [b])) = a :: (l ++ [b]) := by
  unfold trimChars
  rw [List.dropWhile_cons_of_neg (by simp [ha])]
  rw [show (a :: (l ++ [b])).reverse = b :: (l.reverse ++ [a]) by simp]
  rw [List.dropWhile_cons_of_neg (by simp [hb])]
  rw [show (b :: (l.reverse ++ [a])).reverse = a :: (l ++ [b]) by simp]

theorem trimChars_word_space {w : List Char} {wc wlc : Char}
    (hhead : w.head? = some wc) (hwc : wsChar wc = false)
    (hlast : w.getLast? = some wlc) (hwl : wsChar wlc = false) :
    trimChars (w ++ [' ']) = w := by
  cases w with
  | nil => cases hhead
  | cons c w' =>
    have hwc' : wsChar c = false := by
      have h1 : c = wc := by simpa using hhead
      rw [h1]
      exact hwc
    unfold trimChars
    rw [List.cons_append, List.dropWhile_cons_of_neg (by simp [hwc'])]
    rw [show (c :: (w' ++ [' '])).reverse = ' ' :: (c :: w').reverse by simp]
    rw [List.dropWhile_cons_of_pos (by simp [wsChar])]
    cases hrev : (c :: w').reverse with
    | nil => simp at hrev
    | cons y ys =>
      have hy : y = wlc := by
        have hh : (c :: w').reverse.head? = (c :: w').getLast? := List.head?_reverse _
        rw [hrev, hlast] at hh
        simpa using hh
      rw [List.dropWhile_cons_of_neg (by simp [hy, hwl])]
      rw [← hrev, List.reverse_reverse]

theorem takeWhile_ne_append (sep : Char) (pre post : List Char)
    (h : ∀ c ∈ pre, ¬ c = sep) :
    (pre ++ sep :: post).takeWhile (· ≠ sep) = pre := by
  induction pre with
  | nil =>
    simp only [List.nil_append]
    rw [List.takeWhile_cons_of_neg (by simp)]
  | cons c t ih =>
    have hc : ¬ c = sep := h c (List.mem_cons_self _ _)
    simp only [List.cons_append]
    rw [List.takeWhile_cons_of_pos (by simp [hc])]
    rw [ih fun x hx => h x (List.mem_cons_of_mem _ hx)]

theorem dropWhile_ne_append (sep : Char) (pre post : List Char)
    (h : ∀ c ∈ pre, ¬ c = sep) :
    (pre ++ sep :: post).dropWhile (· ≠ sep) = sep :: post := by
  induction pre with
  | nil =>
    simp only [List.nil_append]
    rw [List.dropWhile_cons_of_neg (by simp)]
  | cons c t ih =>
    have hc : ¬ c = sep := h c (List.mem_cons_self _ _)
    simp only [List.cons_append]
    rw [List.dropWhile_cons_of_pos (by simp [hc])]
    exact ih fun x hx => h x (List.mem_cons_of_mem _ hx)

theorem splitFirst_append (sep : Char) (pre post : List Char)
    (h : ∀ c ∈ pre, ¬ c = sep) :
    splitFirst sep ⟨pre ++ sep :: post⟩ = some (⟨pre⟩, ⟨post⟩) := by
  unfold splitFirst
  rw [show (⟨pre ++ sep :: post⟩ : String).data = pre ++ sep :: post from rfl]
  rw [dropWhile_ne_append sep pre post h]
  rw [takeWhile_ne_append sep pre post h]

theorem quoteTrimChars_wrap {l : List Char} (h1 : l.head? ≠ some '"')
    (h2 : l.getLast? ≠ some '"') :
    quoteTrimChars ('"' :: (l ++ ['"'])) = l := by
  cases l with
  | nil => rfl
  | cons c cs =>
    have hc : ¬ c = '"' := by
      intro hcc
      exact h1 (by simp [hcc])
    unfold quoteTrimChars
    rw [List.dropWhile_cons_of_pos (by simp)]
    rw [List.cons_append, List.dropWhile_cons_of_neg (by simp [hc])]
    rw [show (c :: (cs ++ ['"'])).reverse = '"' :: (c :: cs).reverse by simp]
    rw [List.dropWhile_cons_of_pos (by simp)]
    cases hrev : (c :: cs).reverse with
    | nil => simp at hrev
    | cons y ys =>
      have hy : ¬ y = '"' := by
        intro hyy
        apply h2
        rw [← List.head?_reverse, hrev]
        simp [hyy]
      rw [List.dropWhile_cons_of_neg (by simp [hy])]
      rw [← hrev, List.reverse_reverse]

theorem parseBasicString_wrap (v : String) :
    parseBasicString ⟨'"' :: (v.data ++ ['"'])⟩ =
      if v.data.all plainStrChar then some v else none := by
  unfold parseBasicString
  rw [show (⟨'"' :: (v.data ++ ['"'])⟩ : String).data = '"' :: (v.data ++ ['"']) from rfl]
  simp only [if_pos rfl]
  rw [show (v.data ++ ['"']).reverse = '"' :: v.data.reverse by simp]
  simp only [if_pos rfl, List.reverse_reverse]
  rfl

/-- A bare-key character is not whitespace, `#`, `[`, or `=`. -/
theorem barekey_char_props {c : Char} (h : (c.isAlphanum || c = '_' || c = '-') = true) :
    wsChar c = false ∧ ¬ c = '#' ∧ ¬ c = '[' ∧ ¬ c = '=' := by
  refine ⟨?_, ?_, ?_, ?_⟩
  · cases hws : wsChar c with
    | false => rfl
    | true =>
      simp only [wsChar, Bool.or_eq_true, decide_eq_true_eq] at hws
      rcases hws with ((((rfl | rfl) | rfl) | rfl) | rfl) | rfl <;> exact absurd h (by decide)
  · intro hc
    subst hc
    exact absurd h (by decide)
  · intro hc
    subst hc
    exact absurd h (by decide)
  · intro hc
    subst hc
    exact absurd h (by decide)

/-- Facts the line readers need about a `key = "value"` line with a
bare-key `w` and symbolic value `v`: it is its own strip, it splits at the
first `=`, and the two parts strip to the bare key and the quoted value. -/
theorem keyline_parts (w : List Char) (wc wlc : Char) (v : String)
    (hhead : w.head? = some wc) (hwcp : (wc.isAlphanum || wc = '_' || wc = '-') = true)
    (hlast : w.getLast? = some wlc) (hwlp : (wlc.isAlphanum || wlc = '_' || wlc = '-') = true)
    (hchars : ∀ c ∈ w, (c.isAlphanum || c = '_' || c = '-') = true) :
    trimChars (w ++ (' ' :: '=' :: ' ' :: '"' :: (v.data ++ ['"']))) =
      w ++ (' ' :: '=' :: ' ' :: '"' :: (v.data ++ ['"'])) ∧
    splitFirst '=' ⟨w ++ (' ' :: '=' :: ' ' :: '"' :: (v.data ++ ['"']))⟩ =
      some (⟨w ++ [' ']⟩, ⟨' ' :: '"' :: (v.data ++ ['"'])⟩) ∧
    pyStrip ⟨w ++ [' ']⟩ = ⟨w⟩ ∧
    pyStrip ⟨' ' :: '"' :: (v.data ++ ['"'])⟩ = ⟨'"' :: (v.data ++ ['"'])⟩ := by
  obtain ⟨hwsc, _, _, _⟩ := barekey_char_props hwcp
  obtain ⟨hwsl, _, _, _⟩ := barekey_char_props hwlp
  refine ⟨?_, ?_, ?_, ?_⟩
  · cases w with
    | nil => cases hhead
    | cons c w' =>
      have hc : c = wc := by simpa using hhead
      have hshape : (c :: w') ++ (' ' :: '=' :: ' ' :: '"' :: (v.data ++ ['"'])) =
          c :: ((w' ++ (' ' :: '=' :: ' ' :: '"' :: v.data)) ++ ['"']) := by
        simp
      rw [hshape]
      exact trimChars_of_ends _ (by rw [hc]; exact hwsc) (by decide)
  · have hpre : ∀ c ∈ w ++ [' '], ¬ c = '=' := by
      intro c hcm
      rcases List.mem_append.mp hcm with hcw | hcs
      · exact (barekey_char_props (hchars c hcw)).2.2.2
      · simp only [List.mem_singleton] at hcs
        subst hcs
        decide
    have hshape : w ++ (' ' :: '=' :: ' ' :: '"' :: (v.data ++ ['"'])) =
        (w ++ [' ']) ++ '=' :: (' ' :: '"' :: (v.data ++ ['"'])) := by
      simp
    rw [show (⟨w ++ (' ' :: '=' :: ' ' :: '"' :: (v.data ++ ['"']))⟩ : String) =
        ⟨(w ++ [' ']) ++ '=' :: (' ' :: '"' :: (v.data ++ ['"']))⟩ by rw [hshape]]
    exact splitFirst_append '=' _ _ hpre
  · unfold pyStrip
    rw [show (⟨w ++ [' ']⟩ : String).data = w ++ [' '] from rfl]
    rw [trimChars_word_space hhead hwsc hlast hwsl]
  · unfold pyStrip
    rw [show (⟨' ' :: '"' :: (v.data ++ ['"'])⟩ : String).data =
        ' ' :: '"' :: (v.data ++ ['"']) from rfl]
    rw [trimChars_cons_ws _ (by decide)]
    rw [trimChars_of_ends _ (by decide) (by decide)]

/-- Dispatch of the TOML-model parser on a `key = "value"` line. -/
theorem tomlStepStripped_keyline (st : TomlState) (w : List Char) (wc wlc : Char) (v : String)
    (hhead : w.head? = some wc) (hwcp : (wc.isAlphanum || wc = '_' || wc = '-') = true)
    (hlast : w.getLast? = some wlc) (hwlp : (wlc.isAlphanum || wlc = '_' || wlc = '-') = true)
    (hchars : ∀ c ∈ w, (c.isAlphanum || c = '_' || c = '-') = true) :
    tomlStepStripped st ⟨w ++ (' ' :: '=' :: ' ' :: '"' :: (v.data ++ ['"']))⟩ =
      if v.data.all plainStrChar then tomlAddKeyVal st ⟨w⟩ v
      else .error "unsupported value" := by
  obtain ⟨_, hsplit, hkey, hval⟩ := keyline_parts w wc wlc v hhead hwcp hlast hwlp hchars
  obtain ⟨hwsc, hhash, hbrak, _⟩ := barekey_char_props hwcp
  cases w with
  | nil => cases hhead
  | cons c w' =>
    have hc : c = wc := by simpa using hhead
    have hnb : ¬ c = '#' := fun hx => hhash (hc ▸ hx)
    have hlb : ¬ c = '[' := fun hx => hbrak (hc ▸ hx)
    have hbeq : ('[' == c) = false := beq_eq_false_iff_ne.mpr fun hx => hlb hx.symm
    unfold tomlStepStripped
    rw [show (⟨(c :: w') ++ (' ' :: '=' :: ' ' :: '"' :: (v.data ++ ['"']))⟩ : String).data =
        c :: (w' ++ (' ' :: '=' :: ' ' :: '"' :: (v.data ++ ['"']))) from rfl]
    rw [if_neg (show ¬ ((c :: (w' ++ (' ' :: '=' :: ' ' :: '"' :: (v.data ++ ['"'])))).isEmpty
        = true) by simp)]
    rw [if_neg (show ¬ ((c :: (w' ++ (' ' :: '=' :: ' ' :: '"' :: (v.data ++ ['"'])))).head?
        = some '#') by simp [hnb])]
    rw [if_neg (show ¬ ((c :: (w' ++ (' ' :: '=' :: ' ' :: '"' :: (v.data ++ ['"']))))
        = "[[require]]".data) from fun hx => by
      rw [show "[[require]]".data = '[' :: "[require]]".data from rfl] at hx
      injection hx with hx1 _
      exact hlb hx1)]
    rw [show "[[".data.isPrefixOf (c :: (w' ++ (' ' :: '=' :: ' ' :: '"' :: (v.data ++ ['"'])))) =
        ('[' == c && "[".data.isPrefixOf (w' ++ (' ' :: '=' :: ' ' :: '"' :: (v.data ++ ['"']))))
        from rfl]
    rw [show "[dependencies.".data.isPrefixOf
        (c :: (w' ++ (' ' :: '=' :: ' ' :: '"' :: (v.data ++ ['"'])))) =
        ('[' == c && "dependencies.".data.isPrefixOf
          (w' ++ (' ' :: '=' :: ' ' :: '"' :: (v.data ++ ['"'])))) from rfl]
    rw [show "[".data.isPrefixOf (c :: (w' ++ (' ' :: '=' :: ' ' :: '"' :: (v.data ++ ['"'])))) =
        ('[' == c && [].isPrefixOf (w' ++ (' ' :: '=' :: ' ' :: '"' :: (v.data ++ ['"']))))
        from rfl]
    rw [hbeq]
    simp only [Bool.false_and, Bool.false_eq_true, if_false, Bool.and_eq_true, false_and]
    rw [hsplit]
    simp only []
    rw [hkey, hval, parseBasicString_wrap v]
    have hbare : isBareKey ⟨c :: w'⟩ = true := by
      unfold isBareKey
      simp only [Bool.and_eq_true]
      exact ⟨by simp, List.all_eq_true.mpr fun x hx => hchars x hx⟩
    cases hall : v.data.all plainStrChar with
    | true => simp [hbare]
    | false => simp

/-- Dispatch of `_extract_from_toml`'s loop on a `key = "value"` line. -/
theorem extractStepStripped_keyline (st : ExtState) (cd : StrDict)
    (w : List Char) (wc wlc : Char) (v : String)
    (hcur : st.current = some cd)
    (hhead : w.head? = some wc) (hwcp : (wc.isAlphanum || wc = '_' || wc = '-') = true)
    (hlast : w.getLast? = some wlc) (hwlp : (wlc.isAlphanum || wlc = '_' || wlc = '-') = true)
    (hchars : ∀ c ∈ w, (c.isAlphanum || c = '_' || c = '-') = true) :
    extractStepStripped st ⟨w ++ (' ' :: '=' :: ' ' :: '"' :: (v.data ++ ['"']))⟩ =
      { st with
        current := some (dictSet cd ⟨w⟩ (pyStripQuotes ⟨'"' :: (v.data ++ ['"'])⟩)) } := by
  obtain ⟨_, hsplit, hkey, hval⟩ := keyline_parts w wc wlc v hhead hwcp hlast hwlp hchars
  obtain ⟨hwsc, hhash, hbrak, _⟩ := barekey_char_props hwcp
  cases w with
  | nil => cases hhead
  | cons c w' =>
    have hc : c = wc := by simpa using hhead
    have hlb : ¬ c = '[' := fun hx => hbrak (hc ▸ hx)
    have hbeq : ('[' == c) = false := beq_eq_false_iff_ne.mpr fun hx => hlb hx.symm
    unfold extractStepStripped
    rw [show (⟨(c :: w') ++ (' ' :: '=' :: ' ' :: '"' :: (v.data ++ ['"']))⟩ : String).data =
        c :: (w' ++ (' ' :: '=' :: ' ' :: '"' :: (v.data ++ ['"']))) from rfl]
    rw [if_neg (show ¬ ((c :: (w' ++ (' ' :: '=' :: ' ' :: '"' :: (v.data ++ ['"'])))).isEmpty
        = true) by simp)]
    rw [show "[[require]]".data.isPrefixOf
        (c :: (w' ++ (' ' :: '=' :: ' ' :: '"' :: (v.data ++ ['"'])))) =
        ('[' == c && "[require]]".data.isPrefixOf
          (w' ++ (' ' :: '=' :: ' ' :: '"' :: (v.data ++ ['"'])))) from rfl]
    rw [show "[dependencies.".data.isPrefixOf
        (c :: (w' ++ (' ' :: '=' :: ' ' :: '"' :: (v.data ++ ['"'])))) =
        ('[' == c && "dependencies.".data.isPrefixOf
          (w' ++ (' ' :: '=' :: ' ' :: '"' :: (v.data ++ ['"'])))) from rfl]
    rw [hbeq]
    simp only [Bool.false_and, Bool.false_eq_true, if_false]
    rw [hsplit, hcur]
    simp only []
    rw [hkey, hval]

theorem string_eq_of_data {s : String} {l : List Char} (h : s.data = l) : s = ⟨l⟩ := by
  rw [← h]

theorem nameline_eq (v : String) :
    "name = \"" ++ v ++ "\"" =
      (⟨"name".data ++ (' ' :: '=' :: ' ' :: '"' :: (v.data ++ ['"']))⟩ : String) := by
  apply string_eq_of_data
  rw [String.data_append, String.data_append]
  rw [show "name = \"".data = ['n', 'a', 'm', 'e', ' ', '=', ' ', '"'] from rfl]
  rw [show ("\"" : String).data = ['"'] from rfl]
  rw [show "name".data = ['n', 'a', 'm', 'e'] from rfl]
  simp

theorem scopeline_eq (v : String) :
    "scope = \"" ++ v ++ "\"" =
      (⟨"scope".data ++ (' ' :: '=' :: ' ' :: '"' :: (v.data ++ ['"']))⟩ : String) := by
  apply string_eq_of_data
  rw [String.data_append, String.data_append]
  rw [show "scope = \"".data = ['s', 'c', 'o', 'p', 'e', ' ', '=', ' ', '"'] from rfl]
  rw [show ("\"" : String).data = ['"'] from rfl]
  rw [show "scope".data = ['s', 'c', 'o', 'p', 'e'] from rfl]
  simp

theorem revline_eq (v : String) :
    "rev = \"" ++ v ++ "\"" =
      (⟨"rev".data ++ (' ' :: '=' :: ' ' :: '"' :: (v.data ++ ['"']))⟩ : String) := by
  apply string_eq_of_data
  rw [String.data_append, String.data_append]
  rw [show "rev = \"".data = ['r', 'e', 'v', ' ', '=', ' ', '"'] from rfl]
  rw [show ("\"" : String).data = ['"'] from rfl]
  rw [show "rev".data = ['r', 'e', 'v'] from rfl]
  simp

theorem pyStrip_keyline {w : List Char} (v : String)
    (htrim : trimChars (w ++ (' ' :: '=' :: ' ' :: '"' :: (v.data ++ ['"']))) =
      w ++ (' ' :: '=' :: ' ' :: '"' :: (v.data ++ ['"']))) :
    pyStrip ⟨w ++ (' ' :: '=' :: ' ' :: '"' :: (v.data ++ ['"']))⟩ =
      ⟨w ++ (' ' :: '=' :: ' ' :: '"' :: (v.data ++ ['"']))⟩ := by
  unfold pyStrip
  rw [show (⟨w ++ (' ' :: '=' :: ' ' :: '"' :: (v.data ++ ['"']))⟩ : String).data =
      w ++ (' ' :: '=' :: ' ' :: '"' :: (v.data ++ ['"'])) from rfl]
  rw [htrim]

theorem tomlStep_nameline (st : TomlState) (v : String) :
    tomlStep st ("name = \"" ++ v ++ "\"") =
      if v.data.all plainStrChar then tomlAddKeyVal st "name" v
      else .error "unsupported value" := by
  unfold tomlStep
  rw [nameline_eq v]
  rw [pyStrip_keyline v
    (keyline_parts "name".data 'n' 'e' v rfl (by decide) rfl (by decide) (by decide)).1]
  rw [tomlStepStripped_keyline st "name".data 'n' 'e' v rfl (by decide) rfl (by decide) (by decide)]

theorem tomlStep_scopeline (st : TomlState) (v : String) :
    tomlStep st ("scope = \"" ++ v ++ "\"") =
      if v.data.all plainStrChar then tomlAddKeyVal st "scope" v
      else .error "unsupported value" := by
  unfold tomlStep
  rw [scopeline_eq v]
  rw [pyStrip_keyline v
    (keyline_parts "scope".data 's' 'e' v rfl (by decide) rfl (by decide) (by decide)).1]
  rw [tomlStepStripped_keyline st "scope".data 's' 'e' v rfl (by decide) rfl (by decide) (by decide)]

theorem tomlStep_revline (st : TomlState) (v : String) :
    tomlStep st ("rev = \"" ++ v ++ "\"") =
      if v.data.all plainStrChar then tomlAddKeyVal st "rev" v
      else .error "unsupported value" := by
  unfold tomlStep
  rw [revline_eq v]
  rw [pyStrip_keyline v
    (keyline_parts "rev".data 'r' 'v' v rfl (by decide) rfl (by decide) (by decide)).1]
  rw [tomlStepStripped_keyline st "rev".data 'r' 'v' v rfl (by decide) rfl (by decide) (by decide)]

theorem extractStep_nameline (st : ExtState) (cd : StrDict) (v : String)
    (hcur : st.current = some cd) :
    extractStep st ("name = \"" ++ v ++ "\"") =
      { st with
        current := some (dictSet cd "name" (pyStripQuotes ⟨'"' :: (v.data ++ ['"'])⟩)) } := by
  unfold extractStep
  rw [nameline_eq v]
  rw [pyStrip_keyline v
    (keyline_parts "name".data 'n' 'e' v rfl (by decide) rfl (by decide) (by decide)).1]
  rw [extractStepStripped_keyline st cd "name".data 'n' 'e' v hcur rfl (by decide) rfl (by decide) (by decide)]

theorem extractStep_scopeline (st : ExtState) (cd : StrDict) (v : String)
    (hcur : st.current = some cd) :
    extractStep st ("scope = \"" ++ v ++ "\"") =
      { st with
        current := some (dictSet cd "scope" (pyStripQuotes ⟨'"' :: (v.data ++ ['"'])⟩)) } := by
  unfold extractStep
  rw [scopeline_eq v]
  rw [pyStrip_keyline v
    (keyline_parts "scope".data 's' 'e' v rfl (by decide) rfl (by decide) (by decide)).1]
  rw [extractStepStripped_keyline st cd "scope".data 's' 'e' v hcur rfl (by decide) rfl (by decide) (by decide)]

theorem extractStep_revline (st : ExtState) (cd : StrDict) (v : String)
    (hcur : st.current = some cd) :
    extractStep st ("rev = \"" ++ v ++ "\"") =
      { st with
        current := some (dictSet cd "rev" (pyStripQuotes ⟨'"' :: (v.data ++ ['"'])⟩)) } := by
  unfold extractStep
  rw [revline_eq v]
  rw [pyStrip_keyline v
    (keyline_parts "rev".data 'r' 'v' v rfl (by decide) rfl (by decide) (by decide)).1]
  rw [extractStepStripped_keyline st cd "rev".data 'r' 'v' v hcur rfl (by decide) rfl (by decide) (by decide)]

theorem tomlStep_requireHeader (st : TomlState) :
    tomlStep st "[[require]]" =
      if tableHasKey st.data.topKeys "require" || (tablesLookup st.data.sections "require").isSome
      then .error "cannot redefine require"
      else .ok ⟨.inRequire, { st.data with requires := st.data.requires ++ [[]] }⟩ := rfl

theorem extractStep_requireHeader (st : ExtState) :
    extractStep st "[[require]]" = { flushDep st with current := some [] } := rfl

theorem requiresAddKey_concat (rs : List StrDict) (t : StrDict) (k v : String) :
    requiresAddKey (rs ++ [t]) k v =
      if tableHasKey t k then .error "duplicate key" else .ok (rs ++ [t ++ [(k, v)]]) := by
  unfold requiresAddKey
  rw [List.getLast?_concat, List.dropLast_concat]

theorem tomlAddKeyVal_inRequire (d : TomlData) (rs : List StrDict) (t : StrDict) (k v : String)
    (h : d.requires = rs ++ [t]) :
    tomlAddKeyVal ⟨.inRequire, d⟩ k v =
      if tableHasKey t k then .error "duplicate key"
      else .ok ⟨.inRequire, { d with requires := rs ++ [t ++ [(k, v)]] }⟩ := by
  simp only [tomlAddKeyVal]
  rw [h, requiresAddKey_concat]
  cases htk : tableHasKey t k <;> rfl

theorem tomlRun_append (a b : List String) : ∀ st, tomlRun st (a ++ b) =
    match tomlRun st a with
    | .ok st1 => tomlRun st1 b
    | .error e => .error e := by
  induction a with
  | nil => intro st; rfl
  | cons l rest ih =>
    intro st
    simp only [List.cons_append, tomlRun]
    cases h : tomlStep st l with
    | ok st1 => simp [ih]
    | error e => simp

theorem tomlRun_blank : ∀ ls : List String, ls.all isBlankLine = true →
    ∀ st : TomlState, tomlRun st ls = .ok st := by
  intro ls
  induction ls with
  | nil => intro _ st; rfl
  | cons l rest ih =>
    intro h st
    simp only [List.all_cons, Bool.and_eq_true] at h
    have hstep : tomlStep st l = .ok st := by
      unfold tomlStep tomlStepStripped
      rw [if_pos (show (pyStrip l).data.isEmpty = true from h.1)]
    simp only [tomlRun, hstep]
    exact ih h.2 st

/-- Running the parser over the appended `[[require]]` block from any state
either fails or appends exactly the block's entry to `requires`, leaving
everything else unchanged. -/
theorem tomlRun_requireBlock_ok {dep : LeanDependencyConfig} {st st' : TomlState}
    (h : tomlRun st (requireBlock dep) = .ok st') :
    st'.data.requires = st.data.requires ++ [reqEntry dep] ∧
    st'.data.topKeys = st.data.topKeys ∧
    st'.data.sections = st.data.sections ∧
    st'.data.depTables = st.data.depTables := by
  cases hv : strTruthy dep.version with
  | false =>
    rw [show requireBlock dep = ["[[require]]", "name = \"" ++ dep.name ++ "\"",
        "scope = \"" ++ dep.scope ++ "\""] by simp [requireBlock, hv]] at h
    simp only [tomlRun] at h
    rw [tomlStep_requireHeader st] at h
    split at h
    next st1 heq1 =>
      split at heq1
      · exact absurd heq1 (by simp)
      · injection heq1 with heq1'
        subst heq1'
        rw [tomlStep_nameline] at h
        split at h
        next st2 heq2 =>
          split at heq2
          case isTrue =>
            rw [tomlAddKeyVal_inRequire _ st.data.requires [] "name" dep.name rfl] at heq2
            rw [if_neg (by simp [tableHasKey])] at heq2
            injection heq2 with heq2'
            subst heq2'
            rw [tomlStep_scopeline] at h
            split at h
            next st3 heq3 =>
              split at heq3
              case isTrue =>
                rw [tomlAddKeyVal_inRequire _ st.data.requires [("name", dep.name)]
                  "scope" dep.scope (by simp)] at heq3
                rw [if_neg (by simp [tableHasKey])] at heq3
                injection heq3 with heq3'
                subst heq3'
                injection h with h'
                subst h'
                refine ⟨?_, rfl, rfl, rfl⟩
                simp [reqEntry, hv]
              case isFalse => exact absurd heq3 (by simp)
            next e heq3 => simp at h
          case isFalse => exact absurd heq2 (by simp)
        next e heq2 => simp at h
    next e heq1 => simp at h
  | true =>
    rw [show requireBlock dep = ["[[require]]", "name = \"" ++ dep.name ++ "\"",
        "scope = \"" ++ dep.scope ++ "\"", "rev = \"" ++ dep.version.getD "" ++ "\""] by
      simp [requireBlock, hv]] at h
    simp only [tomlRun] at h
    rw [tomlStep_requireHeader st] at h
    split at h
    next st1 heq1 =>
      split at heq1
      · exact absurd heq1 (by simp)
      · injection heq1 with heq1'
        subst heq1'
        rw [tomlStep_nameline] at h
        split at h
        next st2 heq2 =>
          split at heq2
          case isTrue =>
            rw [tomlAddKeyVal_inRequire _ st.data.requires [] "name" dep.name rfl] at heq2
            rw [if_neg (by simp [tableHasKey])] at heq2
            injection heq2 with heq2'
            subst heq2'
            rw [tomlStep_scopeline] at h
            split at h
            next st3 heq3 =>
              split at heq3
              case isTrue =>
                rw [tomlAddKeyVal_inRequire _ st.data.requires [("name", dep.name)]
                  "scope" dep.scope (by simp)] at heq3
                rw [if_neg (by simp [tableHasKey])] at heq3
                injection heq3 with heq3'
                subst heq3'
                rw [tomlStep_revline] at h
                split at h
                next st4 heq4 =>
                  split at heq4
                  case isTrue =>
                    rw [tomlAddKeyVal_inRequire _ st.data.requires
                      [("name", dep.name), ("scope", dep.scope)] "rev" (dep.version.getD "")
                      (by simp)] at heq4
                    rw [if_neg (by simp [tableHasKey])] at heq4
                    injection heq4 with heq4'
                    subst heq4'
                    injection h with h'
                    subst h'
                    refine ⟨?_, rfl, rfl, rfl⟩
                    simp [reqEntry, hv]
                  case isFalse => exact absurd heq4 (by simp)
                next e heq4 => simp at h
              case isFalse => exact absurd heq3 (by simp)
            next e heq3 => simp at h
          case isFalse => exact absurd heq2 (by simp)
        next e heq2 => simp at h
    next e heq1 => simp at h

theorem strTruthy_some_of_ne {v : String} (hv : v ≠ "") : strTruthy (some v) = true := by
  unfold strTruthy
  cases hie : v.isEmpty with
  | false => simp [hie]
  | true => exact absurd ((String.isEmpty_iff v).mp hie) hv

/-- A parse whose `requires` list ends with the block's entry satisfies
`_dependency_exists` for the block's declaration, as long as the version
pin is not the empty string. -/
theorem dependencyExists_last {data : TomlData} {R : List StrDict}
    {dep : LeanDependencyConfig}
    (hreq : data.requires = R ++ [reqEntry dep]) (hv : dep.version ≠ some "") :
    dependencyExists data dep = true := by
  unfold dependencyExists
  simp only [Bool.or_eq_true]
  left
  unfold requireEntriesList
  rw [hreq]
  rw [if_pos (by simp)]
  apply List.any_eq_true.mpr
  refine ⟨reqEntry dep, List.mem_append_right _ (by simp), ?_⟩
  cases hver : dep.version with
  | none =>
    have hentry : reqEntry dep = [("name", dep.name), ("scope", dep.scope)] := by
      simp [reqEntry, hver, strTruthy]
    rw [hentry]
    have e1 : dictGet [("name", dep.name), ("scope", dep.scope)] "name" = some dep.name := rfl
    have e2 : dictGet [("name", dep.name), ("scope", dep.scope)] "scope" = some dep.scope := rfl
    rw [e1, e2]
    simp
  | some v =>
    have hvne : v ≠ "" := by
      intro hx
      exact hv (hver.trans (by rw [hx]))
    have hst : strTruthy (some v) = true := strTruthy_some_of_ne hvne
    have hentry : reqEntry dep = [("name", dep.name), ("scope", dep.scope), ("rev", v)] := by
      simp [reqEntry, hver, hst]
    rw [hentry]
    have e1 : dictGet [("name", dep.name), ("scope", dep.scope), ("rev", v)] "name" =
        some dep.name := rfl
    have e2 : dictGet [("name", dep.name), ("scope", dep.scope), ("rev", v)] "scope" =
        some dep.scope := rfl
    have e3 : entryVersion [("name", dep.name), ("scope", dep.scope), ("rev", v)] =
        pyOrS (some v) (pyOrS none none) := rfl
    rw [e1, e2, e3]
    simp [pyOrS, hst]

theorem writeDependencyToml_blank {ls : List String} (dep : LeanDependencyConfig)
    (hb : ls.all isBlankLine = true) :
    writeDependencyToml ls dep =
      if dependencyExists emptyTomlData dep then .ok ls else .ok (ls ++ requireBlock dep) := by
  unfold writeDependencyToml
  rw [if_pos hb]

theorem writeDependencyToml_parse_ok {ls : List String} {data : TomlData}
    (dep : LeanDependencyConfig) (hb : ls.all isBlankLine = false)
    (hp : tomlParseLines ls = .ok data) :
    writeDependencyToml ls dep =
      if dependencyExists data dep then .ok ls else .ok (ls ++ requireBlock dep) := by
  unfold writeDependencyToml
  rw [if_neg (by simp [hb]), hp]

theorem writeDependencyToml_parse_err {ls : List String} {e : String}
    (dep : LeanDependencyConfig) (hb : ls.all isBlankLine = false)
    (hp : tomlParseLines ls = .error e) :
    writeDependencyToml ls dep = .error ⟨"Invalid TOML in lakefile.toml: " ++ e⟩ := by
  unfold writeDependencyToml
  rw [if_neg (by simp [hb]), hp]

/-- The appended block contains the non-blank `[[require]]` line. -/
theorem append_block_not_blank (ls : List String) (dep : LeanDependencyConfig) :
    (ls ++ requireBlock dep).all isBlankLine = false := by
  rw [List.all_append]
  have h0 : isBlankLine "[[require]]" = false := rfl
  have h1 : (requireBlock dep).all isBlankLine = false := by
    simp [requireBlock, h0]
  simp [h1]

/-- Exhaustive outcome of a successful `_write_dependency_toml` call: it
returned the file unchanged because an equivalent entry exists, or it
appended the block. -/
theorem writeDependencyToml_ok_cases {ls ls' : List String} {dep : LeanDependencyConfig}
    (h1 : writeDependencyToml ls dep = .ok ls') :
    (ls' = ls ∧ ls.all isBlankLine = false ∧
      ∃ data, tomlParseLines ls = .ok data ∧ dependencyExists data dep = true) ∨
    ls' = ls ++ requireBlock dep := by
  cases hb : ls.all isBlankLine with
  | true =>
    rw [writeDependencyToml_blank dep hb] at h1
    have hex0 : dependencyExists emptyTomlData dep = false := rfl
    rw [hex0] at h1
    simp only [Bool.false_eq_true, if_false] at h1
    injection h1 with h1'
    exact Or.inr h1'.symm
  | false =>
    cases hpl : tomlParseLines ls with
    | error e =>
      rw [writeDependencyToml_parse_err dep hb hpl] at h1
      cases h1
    | ok data =>
      rw [writeDependencyToml_parse_ok dep hb hpl] at h1
      cases hex : dependencyExists data dep with
      | true =>
        rw [hex] at h1
        simp only [if_true] at h1
        injection h1 with h1'
        exact Or.inl ⟨h1'.symm, rfl, data, rfl, hex⟩
      | false =>
        rw [hex] at h1
        simp only [Bool.false_eq_true, if_false] at h1
        injection h1 with h1'
        exact Or.inr h1'.symm

theorem tomlRun_append_ok {a : List String} {st st1 : TomlState} (b : List String)
    (h : tomlRun st a = .ok st1) : tomlRun st (a ++ b) = tomlRun st1 b := by
  rw [tomlRun_append a b st, h]

theorem tomlRun_append_err {a : List String} {st : TomlState} {e : String} (b : List String)
    (h : tomlRun st a = .error e) : tomlRun st (a ++ b) = .error e := by
  rw [tomlRun_append a b st, h]

/-- If the first call appended the block and the appended file still
parses, the parse's `requires` list ends with the block's entry. -/
theorem parse_append_requires {ls : List String} {dep : LeanDependencyConfig} {d' : TomlData}
    (hp' : tomlParseLines (ls ++ requireBlock dep) = .ok d') :
    ∃ R, d'.requires = R ++ [reqEntry dep] := by
  unfold tomlParseLines at hp'
  cases hr0 : tomlRun ⟨.top, emptyTomlData⟩ ls with
  | error e =>
    rw [tomlRun_append_err _ hr0] at hp'
    simp [Except.map] at hp'
  | ok st0 =>
    rw [tomlRun_append_ok _ hr0] at hp'
    cases hrB : tomlRun st0 (requireBlock dep) with
    | error e =>
      rw [hrB] at hp'
      simp [Except.map] at hp'
    | ok stB =>
      rw [hrB] at hp'
      simp only [Except.map] at hp'
      injection hp' with hd
      obtain ⟨hreq, _, _, _⟩ := tomlRun_requireBlock_ok hrB
      exact ⟨st0.data.requires, by rw [← hd]; exact hreq⟩

theorem depEquiv_of_equiv_equiv {a b d : LeanDependencyConfig}
    (h1 : depEquiv a d = true) (h2 : depEquiv b d = true) : depEquiv a b = true := by
  simp only [depEquiv, Bool.and_eq_true, beq_iff_eq] at h1 h2 ⊢
  exact ⟨⟨h1.1.1.trans h2.1.1.symm, h1.1.2.trans h2.1.2.symm⟩, h1.2.trans h2.2.symm⟩

theorem countP_equiv_eq_one {d e : LeanDependencyConfig} :
    ∀ {l : List LeanDependencyConfig}, NoDupEquiv l → e ∈ l → depEquiv e d = true →
      l.countP (fun x => depEquiv x d) = 1 := by
  intro l
  induction l with
  | nil => intro _ he _; cases he
  | cons a t ih =>
    intro hnd he heq
    have hpw := List.pairwise_cons.mp hnd
    rw [List.countP_cons]
    rcases List.mem_cons.mp he with rfl | hmem
    · have hc0 : t.countP (fun x => depEquiv x d) = 0 := by
        rw [List.countP_eq_zero]
        intro b hb
        cases hB : depEquiv b d with
        | false => simp
        | true =>
          have hab : depEquiv e b = true := depEquiv_of_equiv_equiv heq hB
          rw [hpw.1 b hb] at hab
          cases hab
      rw [hc0]
      simp [heq]
    · have hpa : depEquiv a d = false := by
        cases hB : depEquiv a d with
        | false => rfl
        | true =>
          have hae : depEquiv a e = true := depEquiv_of_equiv_equiv hB heq
          rw [hpw.1 e hmem] at hae
          cases hae
      rw [ih hpw.2 hmem heq]
      simp [hpa]

/-- Claim C6 (confirmed): the load path merges manifest- and config-derived
declarations with exact scope+name+version equality, the result never
contains two equivalent declarations, and a declaration present in both
sources occurs exactly once. -/
theorem c6_load_merge :
    ∀ (mf : ManifestFile) (ls : List String) (n : String)
      (deps : List LeanDependencyConfig) (d : LeanDependencyConfig),
      loadExistingDependencies mf (some ls) n = .ok deps →
      NoDupEquiv deps ∧
        (d ∈ manifestDeps mf n → d ∈ extractFromToml ls →
          deps.countP (fun e => depEquiv e d) = 1) := by
  intro mf ls n deps d h
  have hnd := load_nodup h
  refine ⟨hnd, fun hm _ => ?_⟩
  have hdm : d ∈ deps := by
    simp only [loadExistingDependencies] at h
    injection h with h'
    subst h'
    exact foldl_add_mem _ _ _ hm
  exact countP_equiv_eq_one hnd hdm (depEquiv_refl d)

theorem c6_load_merge_witness :
    c6Dep ∈ manifestDeps c6Manifest "proj" ∧
    c6Dep ∈ extractFromToml c6File ∧
    NoDupEquiv [c6Dep] ∧
    ([c6Dep] : List LeanDependencyConfig).countP (fun e => depEquiv e c6Dep) = 1 := by
  have h := c6_load_merge c6Manifest c6File "proj" [c6Dep] c6Dep (by decide)
  exact ⟨by decide, by decide, h.1, h.2 (by decide) (by decide)⟩

/-! ## Claim C7 -/

theorem reverse_two_indexing {l : List String} {a b : String} {t : List String}
    (h : l.reverse = a :: b :: t) :
    2 ≤ l.length ∧ (l[l.length - 1]?).getD "" = a ∧ (l[l.length - 2]?).getD "" = b := by
  have hl : l = t.reverse ++ [b, a] := by
    have := congrArg List.reverse h
    simpa using this
  subst hl
  have hlen : (t.reverse ++ [b, a]).length = t.length + 2 := by simp
  refine ⟨by omega, ?_, ?_⟩
  · rw [List.getElem?_append_right (by simp)]
    simp
  · rw [List.getElem?_append_right (by simp)]
    simp

/-- Claim C7 (confirmed): for manifest records, the derived scope/name are
the second-to-last and last non-empty URL path segments (`.git` stripped
from the name); an absent URL or fewer than two segments falls back to
`unknown` and the declared name; and a record named like the hosting
project is skipped by the load loop. -/
theorem c7_scope_name_derivation :
    ∀ (pkg : List (String × Json)) (u nm selfName : String) (kvs : List (String × Json))
      (rest : List Json) (acc : List LeanDependencyConfig),
      (urlValue pkg = .str u → jsonGet pkg "name" = some (.str nm) →
        extractScopeAndName pkg = .ok (specScopeName (urlPathSegments u) nm)) ∧
      (jsonGet kvs "name" = some (.str selfName) →
        manifestPkgsLoop selfName (.obj kvs :: rest) acc = manifestPkgsLoop selfName rest acc) := by
  intro pkg u nm selfName kvs rest acc
  constructor
  · intro hu hn
    unfold extractScopeAndName
    rw [hu]
    cases hrev : (urlPathSegments u).reverse with
    | nil =>
      have hlen : (urlPathSegments u).length = 0 := by
        simpa using congrArg List.length hrev
      simp [hrev, hn, specScopeName, hlen]
    | cons a t2 =>
      cases t2 with
      | nil =>
        have hlen : (urlPathSegments u).length = 1 := by
          simpa using congrArg List.length hrev
        simp [hrev, hn, specScopeName, hlen]
      | cons b t3 =>
        obtain ⟨h2, hA, hB⟩ := reverse_two_indexing hrev
        simp [hrev, specScopeName, h2, hA, hB]
  · intro hn
    simp only [manifestPkgsLoop, hn]
    simp [jsonTruthyOpt, jsonTruthy, jsonEqStr]

theorem c7_scope_name_derivation_witness :
    urlValue c7Pkg = .str "https://host/leanprover-community/mathlib.git" ∧
    jsonGet c7Pkg "name" = some (.str "mathlib") ∧
    extractScopeAndName c7Pkg =
      .ok (specScopeName
        (urlPathSegments "https://host/leanprover-community/mathlib.git") "mathlib") ∧
    manifestPkgsLoop "mathlib" [.obj c7Pkg] [] = manifestPkgsLoop "mathlib" [] [] :=
  ⟨rfl, rfl,
   (c7_scope_name_derivation c7Pkg "https://host/leanprover-community/mathlib.git" "mathlib"
     "mathlib" c7Pkg [] []).1 rfl rfl,
   (c7_scope_name_derivation c7Pkg "https://host/leanprover-community/mathlib.git" "mathlib"
     "mathlib" c7Pkg [] []).2 rfl⟩

/-! ## Claim C3 -/

/-- Counterexample to claim C3 as stated: requesting pin `v2` while the
file pins `v1` for the same scope+name does append a new `[[require]]`
entry — the file is modified. -/
theorem c3_counterexample :
    writeDependencyToml c3File c3Dep = .ok (c3File ++ requireBlock c3Dep) ∧
    c3File ++ requireBlock c3Dep ≠ c3File := by
  decide

/-- Claim C3 (corrected): an unpinned request matching an existing
same-scope+name entry in either shape `_dependency_exists` covers — a
`[[require]]`/`[require]` entry or a `[dependencies.<name>]` sub-table,
with any pin — is treated as already present and the file is left
unchanged; but a request whose pin matches no existing entry is not
dropped — a new entry with the new pin is appended. -/
theorem c3_install_tiebreak :
    ∀ (ls : List String) (data : TomlData) (dep : LeanDependencyConfig),
      tomlParseLines ls = .ok data →
      ((dep.version = none →
        ((∃ entry ∈ requireEntriesList data,
            dictGet entry "name" = some dep.name ∧ dictGet entry "scope" = some dep.scope) ∨
         (∃ t, tablesLookup data.depTables dep.name = some t ∧
            (dictGet t "scope").getD "unknown" = dep.scope)) →
        writeDependencyToml ls dep = .ok ls) ∧
       (dependencyExists data dep = false →
        writeDependencyToml ls dep = .ok (ls ++ requireBlock dep))) := by
  intro ls data dep hparse
  constructor
  · intro hvnone hmatch
    have hex : dependencyExists data dep = true := by
      unfold dependencyExists
      simp only [Bool.or_eq_true]
      rcases hmatch with ⟨entry, hmem, hname, hscope⟩ | ⟨t, hlook, hscope⟩
      · left
        apply List.any_eq_true.mpr
        refine ⟨entry, hmem, ?_⟩
        rw [hname, hscope, hvnone]
        simp
      · right
        rw [hlook]
        simp [hscope, hvnone]
    cases hb : ls.all isBlankLine with
    | true =>
      have h2 : tomlParseLines ls = .ok emptyTomlData := by
        unfold tomlParseLines
        rw [tomlRun_blank ls hb]
        rfl
      rw [hparse] at h2
      injection h2 with hd
      subst hd
      have hex0 : dependencyExists emptyTomlData dep = false := rfl
      rw [hex0] at hex
      exact Bool.noConfusion hex
    | false =>
      rw [writeDependencyToml_parse_ok dep hb hparse, hex]
      simp
  · intro hnotex
    cases hb : ls.all isBlankLine with
    | true =>
      rw [writeDependencyToml_blank dep hb]
      rw [show dependencyExists emptyTomlData dep = false from rfl]
      simp
    | false =>
      rw [writeDependencyToml_parse_ok dep hb hparse, hnotex]
      simp

theorem c3_install_tiebreak_witness :
    writeDependencyToml c3File ⟨"s", "n", none, false⟩ = .ok c3File ∧
    writeDependencyToml c3FileDeps ⟨"s", "n", none, false⟩ = .ok c3FileDeps ∧
    writeDependencyToml ["[package]"] c3Dep = .ok (["[package]"] ++ requireBlock c3Dep) := by
  refine ⟨?_, ?_, ?_⟩
  · exact (c3_install_tiebreak c3File
      ⟨[], [], [], [[("name", "n"), ("scope", "s"), ("rev", "v1")]]⟩
      ⟨"s", "n", none, false⟩ (by decide)).1 rfl
      (Or.inl ⟨[("name", "n"), ("scope", "s"), ("rev", "v1")], by decide, by decide, by decide⟩)
  · exact (c3_install_tiebreak c3FileDeps
      ⟨[], [], [("n", [("scope", "s"), ("rev", "v1")])], []⟩
      ⟨"s", "n", none, false⟩ (by decide)).1 rfl
      (Or.inr ⟨[("scope", "s"), ("rev", "v1")], by decide, by decide⟩)
  · exact (c3_install_tiebreak ["[package]"]
      ⟨[], [("package", [])], [], []⟩ c3Dep (by decide)).2 (by decide)

/-! ## Claim C5 -/

/-- Counterexample to claim C5 as stated: a declaration with an
empty-string version pin is never detected as already present (the writer
omits the falsy `rev` and the detector compares `"" == None`), so every
install appends another entry — the second call increases the entry
count. -/
theorem c5_counterexample :
    writeDependencyToml ["[package]"] c5Dep = .ok c5File1 ∧
    writeDependencyToml c5File1 c5Dep = .ok (c5File1 ++ requireBlock c5Dep) ∧
    requireCount c5File1 = 1 ∧
    requireCount (c5File1 ++ requireBlock c5Dep) = 2 := by
  decide

/-- Claim C5 (corrected): for declarations whose version pin is not the
empty string, a second install of the same declaration never modifies the
config file — and it returns normally (finding the entry present) whenever
the file written by the first call still parses. -/
theorem c5_config_idempotence :
    ∀ (ls ls' : List String) (dep : LeanDependencyConfig),
      dep.version ≠ some "" →
      writeDependencyToml ls dep = .ok ls' →
      fileAfter (writeDependencyToml ls' dep) ls' = ls' ∧
      (∀ d', tomlParseLines ls' = .ok d' → writeDependencyToml ls' dep = .ok ls') := by
  intro ls ls' dep hv h1
  have hcases := writeDependencyToml_ok_cases h1
  have hnb : ls'.all isBlankLine = false := by
    rcases hcases with ⟨rfl, hb, _⟩ | rfl
    · exact hb
    · exact append_block_not_blank ls dep
  have key : ∀ d', tomlParseLines ls' = .ok d' → dependencyExists d' dep = true := by
    intro d' hp'
    rcases hcases with ⟨rfl, hb, data, hpl, hex⟩ | rfl
    · rw [hpl] at hp'
      injection hp' with hd
      rw [← hd]
      exact hex
    · obtain ⟨R, hreq⟩ := parse_append_requires hp'
      exact dependencyExists_last hreq hv
  constructor
  · cases hp' : tomlParseLines ls' with
    | error e =>
      rw [writeDependencyToml_parse_err dep hnb hp']
      rfl
    | ok d' =>
      rw [writeDependencyToml_parse_ok dep hnb hp', key d' hp']
      rfl
  · intro d' hp'
    rw [writeDependencyToml_parse_ok dep hnb hp', key d' hp']
    rfl

theorem c5_config_idempotence_witness :
    ((⟨"s", "n", some "v1", false⟩ : LeanDependencyConfig).version ≠ some "") ∧
    writeDependencyToml ["[package]"] ⟨"s", "n", some "v1", false⟩ =
      .ok (["[package]"] ++ requireBlock ⟨"s", "n", some "v1", false⟩) ∧
    fileAfter
      (writeDependencyToml (["[package]"] ++ requireBlock ⟨"s", "n", some "v1", false⟩)
        ⟨"s", "n", some "v1", false⟩)
      (["[package]"] ++ requireBlock ⟨"s", "n", some "v1", false⟩) =
      ["[package]"] ++ requireBlock ⟨"s", "n", some "v1", false⟩ := by
  refine ⟨by decide, by decide, ?_⟩
  exact (c5_config_idempotence ["[package]"] _ ⟨"s", "n", some "v1", false⟩ (by decide)
    (by decide)).1

/-! ## Claim C10 -/

theorem pyStripQuotes_wrap {v : String} (h1 : v.data.head? ≠ some '"')
    (h2 : v.data.getLast? ≠ some '"') :
    pyStripQuotes ⟨'"' :: (v.data ++ ['"'])⟩ = v := by
  unfold pyStripQuotes
  rw [show (⟨'"' :: (v.data ++ ['"'])⟩ : String).data = '"' :: (v.data ++ ['"']) from rfl]
  rw [quoteTrimChars_wrap h1 h2]

theorem flushDep_block_noversion {deps : List LeanDependencyConfig} {N S : String}
    (hN : N ≠ "") :
    flushDep ⟨deps, some [("name", N), ("scope", S)]⟩ =
      ⟨deps ++ [⟨S, N, none, false⟩], none⟩ := by
  have hne : N.isEmpty = false := by
    cases hie : N.isEmpty with
    | false => rfl
    | true => exact absurd ((String.isEmpty_iff N).mp hie) hN
  have hred : flushDep ⟨deps, some [("name", N), ("scope", S)]⟩ =
      if N.isEmpty then ⟨deps, none⟩ else ⟨deps ++ [⟨S, N, none, false⟩], none⟩ := rfl
  rw [hred, hne]
  simp

theorem flushDep_block_version {deps : List LeanDependencyConfig} {N S V : String}
    (hN : N ≠ "") (hV : V ≠ "") :
    flushDep ⟨deps, some [("name", N), ("scope", S), ("rev", V)]⟩ =
      ⟨deps ++ [⟨S, N, some V, false⟩], none⟩ := by
  have hne : N.isEmpty = false := by
    cases hie : N.isEmpty with
    | false => rfl
    | true => exact absurd ((String.isEmpty_iff N).mp hie) hN
  have hstV : strTruthy (some V) = true := strTruthy_some_of_ne hV
  have hred : flushDep ⟨deps, some [("name", N), ("scope", S), ("rev", V)]⟩ =
      if N.isEmpty then ⟨deps, none⟩
      else ⟨deps ++ [⟨S, N, pyOrS (some V) (pyOrS none none), false⟩], none⟩ := rfl
  have hpv : pyOrS (some V) (pyOrS none none) = some V := by
    simp [pyOrS, hstV]
  rw [hred, hne, hpv]
  simp

/-- Counterexample to claim C10 as stated: a declaration with the
empty-string version pin is appended by the writer without a `rev` line,
and the reader recovers it with no version at all — the version is not
preserved. -/
theorem c10_counterexample :
    writeDependencyToml ["[package]"] c10Dep = .ok (["[package]"] ++ requireBlock c10Dep) ∧
    extractFromToml (["[package]"] ++ requireBlock c10Dep) = [⟨"s", "n", none, false⟩] ∧
    (⟨"s", "n", none, false⟩ : LeanDependencyConfig).version ≠ c10Dep.version := by
  decide

/-- Claim C10 (corrected): the write/read round trip holds for every
declaration whose name and scope are non-empty, do not begin or end with a
double quote, and whose version is either absent or a non-empty string
with the same property: appending the writer's block to any config file
and re-reading it with `_extract_from_toml` recovers exactly the written
scope, name and version. -/
theorem c10_roundtrip :
    ∀ (ls : List String) (dep : LeanDependencyConfig),
      dep.name ≠ "" →
      dep.name.data.head? ≠ some '"' → dep.name.data.getLast? ≠ some '"' →
      dep.scope.data.head? ≠ some '"' → dep.scope.data.getLast? ≠ some '"' →
      (dep.version = none ∨ ∃ v, dep.version = some v ∧ v ≠ "" ∧
        v.data.head? ≠ some '"' ∧ v.data.getLast? ≠ some '"') →
      (⟨dep.scope, dep.name, dep.version, false⟩ : LeanDependencyConfig) ∈
        extractFromToml (ls ++ requireBlock dep) := by
  intro ls dep hname hnq1 hnq2 hsq1 hsq2 hver
  unfold extractFromToml
  rw [List.foldl_append]
  rcases hver with hv | ⟨v, hv, hvne, hq1, hq2⟩
  · rw [show requireBlock dep = ["[[require]]", "name = \"" ++ dep.name ++ "\"",
        "scope = \"" ++ dep.scope ++ "\""] by simp [requireBlock, hv, strTruthy]]
    rw [List.foldl_cons, extractStep_requireHeader]
    rw [List.foldl_cons, extractStep_nameline _ [] dep.name rfl]
    rw [pyStripQuotes_wrap hnq1 hnq2]
    rw [show dictSet [] "name" dep.name = [("name", dep.name)] from rfl]
    rw [List.foldl_cons, extractStep_scopeline _ [("name", dep.name)] dep.scope rfl]
    rw [pyStripQuotes_wrap hsq1 hsq2]
    rw [show dictSet [("name", dep.name)] "scope" dep.scope =
        [("name", dep.name), ("scope", dep.scope)] from rfl]
    rw [List.foldl_nil]
    rw [flushDep_block_noversion hname]
    rw [hv]
    exact List.mem_append_right _ (by simp)
  · rw [show requireBlock dep = ["[[require]]", "name = \"" ++ dep.name ++ "\"",
        "scope = \"" ++ dep.scope ++ "\"", "rev = \"" ++ v ++ "\""] by
      simp [requireBlock, hv, strTruthy_some_of_ne hvne]]
    rw [List.foldl_cons, extractStep_requireHeader]
    rw [List.foldl_cons, extractStep_nameline _ [] dep.name rfl]
    rw [pyStripQuotes_wrap hnq1 hnq2]
    rw [show dictSet [] "name" dep.name = [("name", dep.name)] from rfl]
    rw [List.foldl_cons, extractStep_scopeline _ [("name", dep.name)] dep.scope rfl]
    rw [pyStripQuotes_wrap hsq1 hsq2]
    rw [show dictSet [("name", dep.name)] "scope" dep.scope =
        [("name", dep.name), ("scope", dep.scope)] from rfl]
    rw [List.foldl_cons, extractStep_revline _ [("name", dep.name), ("scope", dep.scope)] v rfl]
    rw [pyStripQuotes_wrap hq1 hq2]
    rw [show dictSet [("name", dep.name), ("scope", dep.scope)] "rev" v =
        [("name", dep.name), ("scope", dep.scope), ("rev", v)] from rfl]
    rw [List.foldl_nil]
    rw [flushDep_block_version hname hvne]
    rw [hv]
    exact List.mem_append_right _ (by simp)

theorem c10_roundtrip_witness :
    ("mathlib" : String) ≠ "" ∧
    (⟨"leanprover-community", "mathlib", some "v4.5.0", false⟩ : LeanDependencyConfig) ∈
      extractFromToml (["[package]"] ++
        requireBlock ⟨"leanprover-community", "mathlib", some "v4.5.0", false⟩) := by
  refine ⟨by decide, ?_⟩
  exact c10_roundtrip ["[package]"] ⟨"leanprover-community", "mathlib", some "v4.5.0", false⟩
    (by decide) (by decide) (by decide) (by decide) (by decide)
    (Or.inr ⟨"v4.5.0", rfl, by decide, by decide, by decide⟩)

end LeanPy
